import Mathlib

/-!
# ClickEncoder: quadrature decoder, value resolver and button classifier

A shallow embedding of `firmware/ClickEncoder.cpp` and `firmware/ClickEncoder.h`.

* The object's fields and the three function-local `static` counters of
  `service` form the record `ClickEncoder`.
* `digitalRead` and `millis` are inputs of `service`, collected in `Pins`.
* The preprocessor selections (`ENC_DECODER`, `ENC_HALFSTEP`) form the record `Build`.
* Machine integers are `Int` (signed) and `Nat` (unsigned); every store into a
  fixed-width variable goes through an explicit conversion (`toInt16`, `toUInt16`, ...).
  The target is a 32-bit platform: operands are promoted to a 32-bit `int`.
-/

namespace Firmware

/-! ## Machine integers -/

/-- Conversion to `int8_t`: reduction modulo 2^8 into -128..127. -/
def toInt8 (x : Int) : Int := (x + 128) % 256 - 128

/-- Conversion to `int16_t`: reduction modulo 2^16 into -32768..32767. -/
def toInt16 (x : Int) : Int := (x + 32768) % 65536 - 32768

/-- Conversion to a 32-bit `int`: reduction modulo 2^32. -/
def toInt32 (x : Int) : Int := (x + 2147483648) % 4294967296 - 2147483648

/-- Conversion to `uint8_t`. -/
def toUInt8 (x : Int) : Nat := (x % 256).toNat

/-- Conversion to `uint16_t`. -/
def toUInt16 (x : Int) : Nat := (x % 65536).toNat

/-- Conversion to a 32-bit `unsigned long`; also the bit pattern of a 32-bit `int`. -/
def toUInt32 (x : Int) : Nat := (x % 4294967296).toNat

/-- The C operator `&` on two (promoted) `int` operands. -/
def bitAnd (x y : Int) : Int := toInt32 ((toUInt32 x &&& toUInt32 y : Nat) : Int)

/-- The C operator `|` on two (promoted) `int` operands. -/
def bitOr (x y : Int) : Int := toInt32 ((toUInt32 x ||| toUInt32 y : Nat) : Int)

/-- The C operator `^` on two (promoted) `int` operands. -/
def bitXor (x y : Int) : Int := toInt32 ((toUInt32 x ^^^ toUInt32 y : Nat) : Int)

/-- The C operator `<<` on a (promoted) `int` operand. -/
def shl (x : Int) (k : Nat) : Int := toInt32 (x * 2 ^ k)

/-- The C operator `>>` on a signed operand: arithmetic shift. -/
def sar (x : Int) (k : Nat) : Int := Int.shiftRight x k

/-! ## Configuration constants (`ClickEncoder.cpp`, lines 17-26 and 152) -/

/-- Check the button every 10 ticks. -/
def ENC_buttonINTERVAL : Nat := 10

/-- Second click within 600 ticks. -/
def ENC_DOUBLECLICKTIME : Nat := 600

/-- Report a held button after 1200 ticks. -/
def ENC_HOLDTIME : Nat := 1200

/-- Ceiling of the acceleration counter. -/
def ENC_ACCEL_TOP : Nat := 3072

/-- Growth of the acceleration counter per moved tick. -/
def ENC_ACCEL_INC : Nat := 25

/-- Decay of the acceleration counter per tick. -/
def ENC_ACCEL_DEC : Nat := 2

/-- Window counter value of the single-click mode. -/
def ENC_SINGLECLICKONLY : Nat := 1

/-! ## Data model -/

/-- The enum `ButtonType` of `ClickEncoder.h`, in declaration order. -/
inductive ButtonType where
  | Open
  | Closed
  | Pressed
  | Held
  | Released
  | Clicked
  | DoubleClicked
  deriving DecidableEq, Repr

/-- The two values `ENC_DECODER` may take. -/
inductive Decoder where
  | ENC_NORMAL
  | ENC_FLAKY
  deriving DecidableEq, Repr

/-- Compile-time selections: the decoder and whether `ENC_HALFSTEP` is defined
(the header defines it whenever the table decoder is selected). -/
structure Build where
  decoder : Decoder
  halfstep : Bool
  deriving DecidableEq, Repr

/-- The fields of class `ClickEncoder` together with the `static` locals of `service`
(`keyDownTicks`, `doubleClickTicks`, `last_buttonCheck`). The record follows the calls
made on one encoder: between them the statics keep the values its own `service` left. -/
structure ClickEncoder where
  pinA : Nat
  pinB : Nat
  pinBTN : Nat
  pinsActive : Bool
  delta : Int
  last : Int
  steps : Nat
  acceleration : Nat
  button : ButtonType
  doubleClickEnabled : Bool
  accelerationEnabled : Bool
  keyDownTicks : Nat
  doubleClickTicks : Nat
  last_buttonCheck : Nat
  deriving DecidableEq, Repr

/-- What one call of `service` reads from its environment: the levels returned by
`digitalRead` (`true` is HIGH) for pin A, pin B and, in program order, the two reads
of the button pin, and the value of `millis()`. -/
structure Pins where
  a : Bool
  b : Bool
  btnDown : Bool
  btnUp : Bool
  now : Nat
  deriving DecidableEq, Repr

/-- Every field holds a value of its declared C type. -/
def Valid (s : ClickEncoder) : Prop :=
  s.pinA < 256 ∧ s.pinB < 256 ∧ s.pinBTN < 256 ∧
  -32768 ≤ s.delta ∧ s.delta ≤ 32767 ∧
  -32768 ≤ s.last ∧ s.last ≤ 32767 ∧
  s.steps < 256 ∧ s.acceleration < 65536 ∧
  s.keyDownTicks < 65536 ∧ s.doubleClickTicks < 256 ∧ s.last_buttonCheck < 4294967296

instance (s : ClickEncoder) : Decidable (Valid s) := by
  unfold Valid; infer_instance

/-! ## Decoding tables (`ClickEncoder.cpp`, lines 30-42) -/

/-- Decoding table for hardware with flaky notch (half resolution). -/
def tableHalfStep : List Int := [0, 0, -1, 0, 0, 0, 0, 1, 1, 0, 0, 0, 0, -1, 0, 0]

/-- Decoding table for normal hardware. -/
def tableFullStep : List Int := [0, 1, -1, 0, -1, 0, 0, 1, 1, 0, 0, -1, 0, -1, 1, 0]

/-- The array `_table` compiled into the build. -/
def table (bld : Build) : List Int :=
  if bld.halfstep then tableHalfStep else tableFullStep

/-- The byte read by `pgm_read_byte(&_table[i])`: the entry as an unsigned byte. -/
def pgm_read_byte (bld : Build) (i : Int) : Nat :=
  toUInt8 ((table bld).getD i.toNat 0)

/-! ## Constructor (`ClickEncoder.cpp`, lines 46-64) -/

/-- The values that the three function-local statics of `service` (lines 129-131) hold
when a constructor runs: values of the C types `uint16_t`, `uint8_t` and `unsigned long`.
The statics belong to the function, not to an object: they start at 0 with the program,
every encoder's `service` works on the same three variables, and no constructor resets
them. -/
structure Statics where
  keyDownTicks : Nat
  doubleClickTicks : Nat
  last_buttonCheck : Nat
  deriving DecidableEq, Repr

/-- The statics at program start: the initialisers `= 0` of lines 129-131. -/
def zeroStatics : Statics :=
  { keyDownTicks := 0, doubleClickTicks := 0, last_buttonCheck := 0 }

/-- The constructor (lines 46-64); `readA` and `readB` are the levels `digitalRead`
returns for pins A and B. The constructor does not touch the statics of `service`: the
state keeps the values `st` they hold at that time. -/
def new (A B buttonPin stepsPerNotch : Nat) (active : Bool) (readA readB : Bool)
    (st : Statics) : ClickEncoder :=
  let last : Int := 0
  let last := if readA == active then 3 else last
  let last := if readB == active then toInt16 (bitXor last 1) else last
  { pinA := A % 256, pinB := B % 256, pinBTN := buttonPin % 256, pinsActive := active,
    delta := 0, last := last, steps := stepsPerNotch % 256, acceleration := 0,
    button := ButtonType.Open, doubleClickEnabled := true, accelerationEnabled := true,
    keyDownTicks := st.keyDownTicks, doubleClickTicks := st.doubleClickTicks,
    last_buttonCheck := st.last_buttonCheck }

/-! ## `service` (`ClickEncoder.cpp`, lines 69-177) -/

/-- Lines 74-79: decelerate every tick. -/
def serviceDecay (s : ClickEncoder) : ClickEncoder :=
  if s.accelerationEnabled then
    let a := toUInt16 ((s.acceleration : Int) - ENC_ACCEL_DEC)
    if a &&& 0x8000 ≠ 0 then { s with acceleration := 0 } else { s with acceleration := a }
  else s

/-- Lines 82-90: the new value of `_last`, the 4-bit history that indexes the table. -/
def flakyIndex (s : ClickEncoder) (p : Pins) : Int :=
  let last := toInt16 (bitAnd (shl s.last 2) 0x0F)
  let last := if p.a == s.pinsActive then toInt16 (bitOr last 2) else last
  if p.b == s.pinsActive then toInt16 (bitOr last 1) else last

/-- Lines 82-96: the table decoder; returns the new state and `moved`. -/
def decodeFlaky (bld : Build) (s : ClickEncoder) (p : Pins) : ClickEncoder × Bool :=
  let s := { s with last := flakyIndex s p }
  let tbl := pgm_read_byte bld s.last
  if tbl ≠ 0 then ({ s with delta := toInt16 (s.delta + tbl) }, true) else (s, false)

/-- Lines 98-106: the packed 2-bit code of the current sample. -/
def currCode (s : ClickEncoder) (p : Pins) : Int :=
  let curr : Int := 0
  let curr := if p.a == s.pinsActive then 3 else curr
  if p.b == s.pinsActive then toInt8 (bitXor curr 1) else curr

/-- Lines 98-114: the normal decoder; returns the new state and `moved`. -/
def decodeNormal (s : ClickEncoder) (p : Pins) : ClickEncoder × Bool :=
  let curr := currCode s p
  let diff := toInt8 (s.last - curr)
  if bitAnd diff 1 ≠ 0 then
    ({ s with last := toInt16 curr, delta := toInt16 (s.delta + (bitAnd diff 2 - 1)) }, true)
  else (s, false)

/-- Lines 81-117: the decoder selected by `ENC_DECODER`. -/
def decode (bld : Build) (s : ClickEncoder) (p : Pins) : ClickEncoder × Bool :=
  match bld.decoder with
  | Decoder.ENC_FLAKY => decodeFlaky bld s p
  | Decoder.ENC_NORMAL => decodeNormal s p

/-- Lines 119-124: increment the accelerator if the encoder has been moved. -/
def serviceGrow (s : ClickEncoder) (moved : Bool) : ClickEncoder :=
  if s.accelerationEnabled && moved then
    if s.acceleration ≤ ENC_ACCEL_TOP - ENC_ACCEL_INC then
      { s with acceleration := toUInt16 ((s.acceleration : Int) + ENC_ACCEL_INC) }
    else s
  else s

/-- Lines 139-143: key is down. -/
def buttonDown (s : ClickEncoder) : ClickEncoder :=
  let s := { s with keyDownTicks := toUInt16 ((s.keyDownTicks : Int) + 1) }
  if s.keyDownTicks > ENC_HOLDTIME / ENC_buttonINTERVAL then
    { s with button := ButtonType.Held }
  else s

/-- Lines 146-165: key is now up. -/
def buttonUp (s : ClickEncoder) : ClickEncoder :=
  let s :=
    if s.keyDownTicks ≠ 0 then
      if s.button = ButtonType.Held then
        { s with button := ButtonType.Released, doubleClickTicks := 0 }
      else if s.doubleClickTicks > ENC_SINGLECLICKONLY then
        if s.doubleClickTicks < ENC_DOUBLECLICKTIME / ENC_buttonINTERVAL then
          { s with button := ButtonType.DoubleClicked, doubleClickTicks := 0 }
        else s
      else
        { s with doubleClickTicks :=
            if s.doubleClickEnabled then ENC_DOUBLECLICKTIME / ENC_buttonINTERVAL
            else ENC_SINGLECLICKONLY }
    else s
  { s with keyDownTicks := 0 }

/-- Lines 168-173: the countdown of the double-click window. -/
def buttonWindow (s : ClickEncoder) : ClickEncoder :=
  if s.doubleClickTicks > 0 then
    let s := { s with doubleClickTicks := toUInt8 ((s.doubleClickTicks : Int) - 1) }
    let s := { s with doubleClickTicks := toUInt8 ((s.doubleClickTicks : Int) - 1) }
    if s.doubleClickTicks = 0 then { s with button := ButtonType.Open } else s
  else s

/-- Lines 129-174: handle the button. -/
def serviceButton (s : ClickEncoder) (p : Pins) : ClickEncoder :=
  if s.pinBTN > 0 ∧
      toUInt32 ((toUInt32 p.now : Int) - s.last_buttonCheck) ≥ ENC_buttonINTERVAL then
    let s := { s with last_buttonCheck := toUInt32 p.now }
    let s := if p.btnDown == s.pinsActive then buttonDown s else s
    let s := if p.btnUp == !s.pinsActive then buttonUp s else s
    buttonWindow s
  else s

/-- The function `ClickEncoder::service`, called every tick. -/
def service (bld : Build) (s : ClickEncoder) (p : Pins) : ClickEncoder :=
  let s := serviceDecay s
  let (s, moved) := decode bld s p
  let s := serviceGrow s moved
  serviceButton s p

/-! ## `getValue` (`ClickEncoder.cpp`, lines 181-205) -/

/-- Lines 185-189: the remainder kept in `_delta`. -/
def getValueDelta (s : ClickEncoder) : Int :=
  let val := s.delta
  if s.steps = 2 then toInt16 (bitAnd val 1)
  else if s.steps = 4 then toInt16 (bitAnd val 3)
  else 0

/-- Lines 185 and 191-192: the local `val` after the shifts, the notch count. -/
def getValueVal (s : ClickEncoder) : Int :=
  let val := s.delta
  let val := if s.steps = 4 then toInt16 (sar val 2) else val
  if s.steps = 2 then toInt16 (sar val 1) else val

/-- Line 195: the local `accel`. -/
def getValueAccel (s : ClickEncoder) : Int :=
  toInt16 (if s.accelerationEnabled then ((s.acceleration >>> 8 : Nat) : Int) else 0)

/-- The function `ClickEncoder::getValue`: the returned value and the new state. -/
def getValue (s : ClickEncoder) : Int × ClickEncoder :=
  let val := getValueVal s
  let s' := { s with delta := getValueDelta s }
  let r : Int := 0
  let accel := getValueAccel s
  let r :=
    if val < 0 then toInt16 (r - (1 + accel))
    else if val > 0 then toInt16 (r + (1 + accel))
    else r
  (r, s')

/-! ## `get_button` and the setters -/

/-- The function `ClickEncoder::get_button` (`ClickEncoder.cpp`, lines 210-217). -/
def get_button (s : ClickEncoder) : ButtonType × ClickEncoder :=
  let ret := s.button
  let s := if s.button ≠ ButtonType.Held then { s with button := ButtonType.Open } else s
  (ret, s)

/-- The setter `setDoubleClickEnabled` (`ClickEncoder.h`, lines 66-69). -/
def setDoubleClickEnabled (s : ClickEncoder) (d : Bool) : ClickEncoder :=
  { s with doubleClickEnabled := d }

/-- The setter `setAccelerationEnabled` (`ClickEncoder.h`, lines 77-83). -/
def setAccelerationEnabled (s : ClickEncoder) (a : Bool) : ClickEncoder :=
  let s := { s with accelerationEnabled := a }
  if s.accelerationEnabled = false then { s with acceleration := 0 } else s

/-! ## Call sequences -/

/-- One call the host can make on the encoder. -/
inductive Op where
  | service (p : Pins)
  | getValue
  | get_button
  | setDoubleClickEnabled (d : Bool)
  | setAccelerationEnabled (a : Bool)
  deriving DecidableEq, Repr

/-- What a call returns to the host. -/
inductive Out where
  | none
  | value (v : Int)
  | button (b : ButtonType)
  deriving DecidableEq, Repr

/-- The effect of one call: what it returns and the state it leaves. -/
def step (bld : Build) (s : ClickEncoder) : Op → Out × ClickEncoder
  | Op.service p => (Out.none, service bld s p)
  | Op.getValue => (Out.value (getValue s).1, (getValue s).2)
  | Op.get_button => (Out.button (get_button s).1, (get_button s).2)
  | Op.setDoubleClickEnabled d => (Out.none, setDoubleClickEnabled s d)
  | Op.setAccelerationEnabled a => (Out.none, setAccelerationEnabled s a)

/-- The state after a sequence of calls. -/
def run (bld : Build) (s : ClickEncoder) : List Op → ClickEncoder
  | [] => s
  | op :: ops => run bld (step bld s op).2 ops

/-- The values returned by a sequence of calls, in order. -/
def outputs (bld : Build) (s : ClickEncoder) : List Op → List Out
  | [] => []
  | op :: ops => (step bld s op).1 :: outputs bld (step bld s op).2 ops

/-! ## Concrete builds, states and samples -/

/-- The default build: the normal decoder. -/
def normalBuild : Build := { decoder := Decoder.ENC_NORMAL, halfstep := false }

/-- The build with the table decoder; the header then defines `ENC_HALFSTEP`. -/
def flakyBuild : Build := { decoder := Decoder.ENC_FLAKY, halfstep := true }

/-- A concrete valid state: constructed with active-low pins (both inactive) and four
steps per notch, then delta -5 and acceleration 600. -/
def sampleState : ClickEncoder :=
  { new 1 2 3 4 false true true zeroStatics with delta := -5, acceleration := 600 }

/-- Sample with pin A inactive and pin B active (active-low wiring): code 1. -/
def cwSample1 : Pins := { a := true, b := false, btnDown := true, btnUp := true, now := 0 }

/-- Sample with both pins active: code 2. -/
def cwSample2 : Pins := { a := false, b := false, btnDown := true, btnUp := true, now := 0 }

/-- Sample with pin A active and pin B inactive: code 3. -/
def cwSample3 : Pins := { a := false, b := true, btnDown := true, btnUp := true, now := 0 }

/-- Sample with both pins inactive: code 0. -/
def cwSample0 : Pins := { a := true, b := true, btnDown := true, btnUp := true, now := 0 }

/-- A short call sequence: two moving ticks, a read, one more tick and a second read. -/
def sampleOps : List Op :=
  [Op.service cwSample1, Op.service cwSample2, Op.getValue, Op.service cwSample3, Op.getValue]

/-- The first encoder of the program (statics 0) right after construction, with
active-low pins, both inactive. -/
def idleState : ClickEncoder := new 1 2 3 4 false true true zeroStatics

/-- A valid state with the delta at the top of the `int16_t` range, as after 32767
uncollected steps in the counting-up direction (`_last` is then 3). -/
def maxDeltaState : ClickEncoder :=
  { idleState with delta := 32767, last := 3 }

/-! ## Button scenarios -/

/-- The guard of lines 133-134: a button pin is wired and the debounce interval has
elapsed since the last check. -/
def buttonDue (s : ClickEncoder) (p : Pins) : Prop :=
  s.pinBTN > 0 ∧
    toUInt32 ((toUInt32 p.now : Int) - s.last_buttonCheck) ≥ ENC_buttonINTERVAL

instance (s : ClickEncoder) (p : Pins) : Decidable (buttonDue s p) := by
  unfold buttonDue; infer_instance

/-- Lines 136-166: the state in which the window countdown of lines 168-173 starts, when
a check is due. -/
def windowEntry (s : ClickEncoder) (p : Pins) : ClickEncoder :=
  let s := { s with last_buttonCheck := toUInt32 p.now }
  let s := if p.btnDown == s.pinsActive then buttonDown s else s
  if p.btnUp == !s.pinsActive then buttonUp s else s

/-- Number of debounce checks performed along a call sequence. -/
def buttonChecks (bld : Build) (s : ClickEncoder) : List Op → Nat
  | [] => 0
  | Op.service p :: ops =>
      (if buttonDue s p then 1 else 0) + buttonChecks bld (service bld s p) ops
  | Op.getValue :: ops => buttonChecks bld (getValue s).2 ops
  | Op.get_button :: ops => buttonChecks bld (get_button s).2 ops
  | Op.setDoubleClickEnabled d :: ops => buttonChecks bld (setDoubleClickEnabled s d) ops
  | Op.setAccelerationEnabled a :: ops => buttonChecks bld (setAccelerationEnabled s a) ops

/-- The level `digitalRead` returns for a pin that is active (`down`) or inactive, for
the given active level. -/
def pinLevel (active down : Bool) : Bool := if down then active else !active

/-- A call made while the button pin is steadily active (`down`) or steadily inactive: a
service tick both of whose reads of the button pin return that level, or a read of the
value or of the button. -/
def pinPhase (active down : Bool) : Op → Prop
  | Op.service p => p.btnDown = pinLevel active down ∧ p.btnUp = pinLevel active down
  | Op.getValue => True
  | Op.get_button => True
  | Op.setDoubleClickEnabled _ => False
  | Op.setAccelerationEnabled _ => False

/-- A service tick made while the button pin is steadily active or steadily inactive. -/
def pinTick (active down : Bool) : Op → Prop
  | Op.service p => p.btnDown = pinLevel active down ∧ p.btnUp = pinLevel active down
  | _ => False

/-- What a service tick at time `t` (the value of `millis()`) reads when both reads of
the button pin return `level` and the encoder pins A and B read HIGH. -/
def tickPins (level : Bool) (t : Nat) : Pins :=
  { a := true, b := true, btnDown := level, btnUp := level, now := t }

/-- A service tick at time `t` with the button pin at `level`. -/
def buttonTick (level : Bool) (t : Nat) : Op := Op.service (tickPins level t)

/-- The `n` consecutive service ticks at times `t0 + 1`, ..., `t0 + n`, one per millisecond,
with the button pin steadily at `level`. -/
def buttonTicks (level : Bool) : Nat → Nat → List Op
  | _, 0 => []
  | t0, n + 1 => buttonTick level (t0 + 1) :: buttonTicks level (t0 + 1) n

/-- Saturating subtraction of the decrement, `max(a - 2, 0)` over the integers: the decay
in the words of the specification. -/
def saturatingDecay (a : Nat) : Nat := (max ((a : Int) - 2) 0).toNat

/-- Lines 121-123 on the counter alone: add the increment unless that would pass the
ceiling. -/
def accelGrow (a : Nat) : Nat :=
  if a ≤ ENC_ACCEL_TOP - ENC_ACCEL_INC then a + ENC_ACCEL_INC else a

/-- The counter after `k` further steps of a burst with one step every `g` ticks: between
two steps it is decayed `g` times (on `g - 1` motionless ticks and on the tick of the
step itself), then grown once. -/
def burstAccel (g : Nat) : Nat → Nat → Nat
  | a, 0 => a
  | a, k + 1 => burstAccel g (accelGrow (a - ENC_ACCEL_DEC * g)) k

/-! ## Bursts of steps -/

/-- The quadrature code that follows `c` in the counting-up (`up`) or counting-down
direction. -/
def nextCode (up : Bool) (c : Int) : Int := if up then (c + 1) % 4 else (c - 1) % 4

/-- A sample of pins A and B whose code for the normal decoder is `c` modulo 4 (pin A
active for codes 2 and 3, pin B active for codes 1 and 2); the button pin reads inactive
and `millis()` returns 0. -/
def codePins (active : Bool) (c : Int) : Pins :=
  { a := if c % 4 = 2 ∨ c % 4 = 3 then active else !active,
    b := if c % 4 = 1 ∨ c % 4 = 2 then active else !active,
    btnDown := !active, btnUp := !active, now := 0 }

/-- One period of a burst from code `c`: `g - 1` service ticks without motion, then a
tick that sees the next code. -/
def burstBlock (active up : Bool) (g : Nat) (c : Int) : List Op :=
  List.replicate (g - 1) (Op.service (codePins active c)) ++
    [Op.service (codePins active (nextCode up c))]

/-- The part of a burst after its first step: `k` periods, starting from code `c`. -/
def burstTail (active up : Bool) (g : Nat) : Int → Nat → List Op
  | _, 0 => []
  | c, k + 1 => burstBlock active up g c ++ burstTail active up g (nextCode up c) k

/-- A burst of `n` steps in one direction from code `c`, one step every `g` service
ticks: a tick with the first step, then `n - 1` periods. -/
def burst (active up : Bool) (g : Nat) (c : Int) : Nat → List Op
  | 0 => []
  | k + 1 =>
      Op.service (codePins active (nextCode up c)) :: burstTail active up g (nextCode up c) k

/-- The constructed encoder of the burst examples: active-low pins, both inactive, one
step per notch. -/
def burstState : ClickEncoder := new 1 2 3 1 false true true zeroStatics

theorem bitAnd_three (x : Int) : bitAnd x 3 = x % 4 := by
  have h3 : toUInt32 3 = 2 ^ 2 - 1 := by decide
  unfold bitAnd
  rw [h3, Nat.and_pow_two_sub_one_eq_mod]
  unfold toInt32 toUInt32
  norm_num
  omega

theorem bitAnd_one (x : Int) : bitAnd x 1 = x % 2 := by
  have h1 : toUInt32 1 = 2 ^ 1 - 1 := by decide
  unfold bitAnd
  rw [h1, Nat.and_pow_two_sub_one_eq_mod]
  unfold toInt32 toUInt32
  norm_num
  omega

theorem sar_two (x : Int) : sar x 2 = x / 4 := by
  unfold sar
  have := Int.shiftRight_eq_div_pow x 2
  simpa using this

theorem sar_one (x : Int) : sar x 1 = x / 2 := by
  unfold sar
  have := Int.shiftRight_eq_div_pow x 1
  simpa using this

theorem toInt16_of_range {x : Int} (h1 : -32768 ≤ x) (h2 : x ≤ 32767) : toInt16 x = x := by
  unfold toInt16; omega

theorem shiftRight_eight (a : Nat) : a >>> 8 = a / 256 := by
  rw [Nat.shiftRight_eq_div_pow]

/-! ## Frame lemmas for the parts of `service` -/

theorem buttonDown_frame (s : ClickEncoder) :
    (buttonDown s).delta = s.delta ∧ (buttonDown s).last = s.last ∧
    (buttonDown s).acceleration = s.acceleration ∧
    (buttonDown s).accelerationEnabled = s.accelerationEnabled ∧
    (buttonDown s).steps = s.steps ∧ (buttonDown s).pinsActive = s.pinsActive ∧
    (buttonDown s).pinBTN = s.pinBTN ∧
    (buttonDown s).doubleClickEnabled = s.doubleClickEnabled := by
  unfold buttonDown
  dsimp only
  split_ifs <;> simp

theorem buttonUp_frame (s : ClickEncoder) :
    (buttonUp s).delta = s.delta ∧ (buttonUp s).last = s.last ∧
    (buttonUp s).acceleration = s.acceleration ∧
    (buttonUp s).accelerationEnabled = s.accelerationEnabled ∧
    (buttonUp s).steps = s.steps ∧ (buttonUp s).pinsActive = s.pinsActive ∧
    (buttonUp s).pinBTN = s.pinBTN ∧
    (buttonUp s).doubleClickEnabled = s.doubleClickEnabled := by
  unfold buttonUp
  dsimp only
  split_ifs <;> simp

theorem buttonWindow_frame (s : ClickEncoder) :
    (buttonWindow s).delta = s.delta ∧ (buttonWindow s).last = s.last ∧
    (buttonWindow s).acceleration = s.acceleration ∧
    (buttonWindow s).accelerationEnabled = s.accelerationEnabled ∧
    (buttonWindow s).steps = s.steps ∧ (buttonWindow s).pinsActive = s.pinsActive ∧
    (buttonWindow s).pinBTN = s.pinBTN ∧
    (buttonWindow s).doubleClickEnabled = s.doubleClickEnabled := by
  unfold buttonWindow
  dsimp only
  split_ifs <;> simp

theorem serviceButton_frame (s : ClickEncoder) (p : Pins) :
    (serviceButton s p).delta = s.delta ∧ (serviceButton s p).last = s.last ∧
    (serviceButton s p).acceleration = s.acceleration ∧
    (serviceButton s p).accelerationEnabled = s.accelerationEnabled ∧
    (serviceButton s p).steps = s.steps ∧ (serviceButton s p).pinsActive = s.pinsActive ∧
    (serviceButton s p).pinBTN = s.pinBTN ∧
    (serviceButton s p).doubleClickEnabled = s.doubleClickEnabled := by
  unfold serviceButton
  dsimp only
  split_ifs <;>
    simp only [buttonWindow_frame, buttonUp_frame, buttonDown_frame, and_self]

theorem serviceDecay_frame (s : ClickEncoder) :
    (serviceDecay s).delta = s.delta ∧ (serviceDecay s).last = s.last ∧
    (serviceDecay s).accelerationEnabled = s.accelerationEnabled ∧
    (serviceDecay s).steps = s.steps ∧ (serviceDecay s).pinsActive = s.pinsActive ∧
    (serviceDecay s).pinBTN = s.pinBTN ∧ (serviceDecay s).button = s.button := by
  unfold serviceDecay
  dsimp only
  split_ifs <;> simp

theorem serviceGrow_frame (s : ClickEncoder) (moved : Bool) :
    (serviceGrow s moved).delta = s.delta ∧ (serviceGrow s moved).last = s.last ∧
    (serviceGrow s moved).accelerationEnabled = s.accelerationEnabled ∧
    (serviceGrow s moved).steps = s.steps ∧
    (serviceGrow s moved).pinsActive = s.pinsActive ∧
    (serviceGrow s moved).pinBTN = s.pinBTN ∧ (serviceGrow s moved).button = s.button := by
  unfold serviceGrow
  split_ifs <;> simp

theorem decodeNormal_eq (s : ClickEncoder) (p : Pins) :
    decodeNormal s p =
      if bitAnd (toInt8 (s.last - currCode s p)) 1 ≠ 0 then
        ({ s with last := toInt16 (currCode s p),
                  delta := toInt16 (s.delta + (bitAnd (toInt8 (s.last - currCode s p)) 2 - 1)) },
          true)
      else (s, false) := rfl

theorem decodeFlaky_eq (bld : Build) (s : ClickEncoder) (p : Pins) :
    decodeFlaky bld s p =
      if pgm_read_byte bld (flakyIndex s p) ≠ 0 then
        ({ s with last := flakyIndex s p,
                  delta := toInt16 (s.delta + pgm_read_byte bld (flakyIndex s p)) }, true)
      else ({ s with last := flakyIndex s p }, false) := rfl

theorem decode_normal (bld : Build) (s : ClickEncoder) (p : Pins)
    (h : bld.decoder = Decoder.ENC_NORMAL) : decode bld s p = decodeNormal s p := by
  unfold decode
  rw [h]

theorem decode_flaky (bld : Build) (s : ClickEncoder) (p : Pins)
    (h : bld.decoder = Decoder.ENC_FLAKY) : decode bld s p = decodeFlaky bld s p := by
  unfold decode
  rw [h]

theorem decode_frame (bld : Build) (s : ClickEncoder) (p : Pins) :
    (decode bld s p).1.acceleration = s.acceleration ∧
    (decode bld s p).1.accelerationEnabled = s.accelerationEnabled ∧
    (decode bld s p).1.steps = s.steps ∧ (decode bld s p).1.pinsActive = s.pinsActive ∧
    (decode bld s p).1.pinBTN = s.pinBTN ∧ (decode bld s p).1.button = s.button := by
  rcases hd : bld.decoder with _ | _
  · rw [decode_normal bld s p hd, decodeNormal_eq]
    by_cases h : bitAnd (toInt8 (s.last - currCode s p)) 1 ≠ 0
    · rw [if_pos h]
      exact ⟨rfl, rfl, rfl, rfl, rfl, rfl⟩
    · rw [if_neg h]
      exact ⟨rfl, rfl, rfl, rfl, rfl, rfl⟩
  · rw [decode_flaky bld s p hd, decodeFlaky_eq]
    by_cases h : pgm_read_byte bld (flakyIndex s p) ≠ 0
    · rw [if_pos h]
      exact ⟨rfl, rfl, rfl, rfl, rfl, rfl⟩
    · rw [if_neg h]
      exact ⟨rfl, rfl, rfl, rfl, rfl, rfl⟩

theorem service_eq (bld : Build) (s : ClickEncoder) (p : Pins) :
    service bld s p =
      serviceButton (serviceGrow (decode bld (serviceDecay s) p).1
        (decode bld (serviceDecay s) p).2) p := rfl

/-! ## The acceleration counter -/

theorem and_msb_eq_zero (a : Nat) (h : a < 32768) : a &&& 0x8000 = 0 := by
  apply Nat.eq_of_testBit_eq
  intro i
  rw [Nat.testBit_and, Nat.zero_testBit]
  by_cases hi : i = 15
  · subst hi
    have : a.testBit 15 = false := by
      apply Nat.testBit_lt_two_pow
      omega
    rw [this]; rfl
  · have : Nat.testBit 0x8000 i = false := by
      have h2 : (0x8000 : Nat) = 2 ^ 15 := by norm_num
      rw [h2]
      exact Nat.testBit_two_pow_of_ne (Ne.symm hi)
    rw [this]; simp

theorem and_msb_ne_zero {a : Nat} (h1 : 32768 ≤ a) (h2 : a < 65536) : a &&& 0x8000 ≠ 0 := by
  intro h0
  have ht : (a &&& 0x8000).testBit 15 = true := by
    rw [Nat.testBit_and]
    have hb : a.testBit 15 = true := by
      rw [Nat.testBit_to_div_mod]
      simp
      omega
    rw [hb]; rfl
  rw [h0] at ht
  simp at ht

theorem serviceDecay_acceleration (s : ClickEncoder) (h : s.acceleration < 32768) :
    (serviceDecay s).acceleration =
      if s.accelerationEnabled then s.acceleration - 2 else s.acceleration := by
  unfold serviceDecay
  dsimp only
  by_cases he : s.accelerationEnabled = true
  · simp only [he, if_true]
    by_cases h2 : 2 ≤ s.acceleration
    · have hv : toUInt16 ((s.acceleration : Int) - ENC_ACCEL_DEC) = s.acceleration - 2 := by
        unfold toUInt16 ENC_ACCEL_DEC; omega
      rw [hv]
      have := and_msb_eq_zero (s.acceleration - 2) (by omega)
      rw [if_neg (by simpa using this)]
    · have hv : 32768 ≤ toUInt16 ((s.acceleration : Int) - ENC_ACCEL_DEC) ∧
          toUInt16 ((s.acceleration : Int) - ENC_ACCEL_DEC) < 65536 := by
        unfold toUInt16 ENC_ACCEL_DEC; omega
      have := and_msb_ne_zero hv.1 hv.2
      rw [if_pos this]
      show 0 = s.acceleration - 2
      omega
  · simp [he]

theorem serviceGrow_acceleration (s : ClickEncoder) (moved : Bool) (h : s.acceleration ≤ 3072) :
    (serviceGrow s moved).acceleration =
      if s.accelerationEnabled && moved then
        (if s.acceleration ≤ 3047 then s.acceleration + 25 else s.acceleration)
      else s.acceleration := by
  unfold serviceGrow
  split_ifs with h1 h2 h3 h4
  · show toUInt16 ((s.acceleration : Int) + ENC_ACCEL_INC) = _
    unfold toUInt16 ENC_ACCEL_INC; omega
  · exfalso; unfold ENC_ACCEL_TOP ENC_ACCEL_INC at h2; omega
  · exfalso; unfold ENC_ACCEL_TOP ENC_ACCEL_INC at h2; omega
  · rfl
  · rfl

theorem service_acceleration_le (bld : Build) (s : ClickEncoder) (p : Pins)
    (h : s.acceleration ≤ 3072) : (service bld s p).acceleration ≤ 3072 := by
  rw [service_eq, (serviceButton_frame _ p).2.2.1]
  have hd := serviceDecay_acceleration s (by omega)
  have hle : (decode bld (serviceDecay s) p).1.acceleration ≤ 3072 := by
    rw [(decode_frame bld _ p).1, hd]
    split <;> omega
  rw [serviceGrow_acceleration _ _ hle]
  split_ifs <;> omega

theorem service_acceleration_disabled (bld : Build) (s : ClickEncoder) (p : Pins)
    (h : s.accelerationEnabled = false) :
    (service bld s p).accelerationEnabled = false ∧
    (service bld s p).acceleration = s.acceleration := by
  rw [service_eq]
  have h1 : (serviceDecay s) = s := by
    unfold serviceDecay; simp [h]
  rw [(serviceButton_frame _ p).2.2.1, (serviceButton_frame _ p).2.2.2.1, h1,
    (serviceGrow_frame _ _).2.2.1, (decode_frame bld s p).2.1]
  refine ⟨h, ?_⟩
  unfold serviceGrow
  have h2 : (decode bld s p).1.accelerationEnabled = false := by
    rw [(decode_frame bld s p).2.1]; exact h
  simp only [h2, Bool.false_and]
  exact (decode_frame bld s p).1

theorem get_button_frame (s : ClickEncoder) :
    (get_button s).2.accelerationEnabled = s.accelerationEnabled ∧
    (get_button s).2.acceleration = s.acceleration := by
  unfold get_button
  dsimp only
  split_ifs <;> exact ⟨rfl, rfl⟩

/-! ## The decoders -/

theorem currCode_congr (s t : ClickEncoder) (p : Pins) (h : t.pinsActive = s.pinsActive) :
    currCode t p = currCode s p := by
  unfold currCode
  rw [h]

theorem currCode_range (s : ClickEncoder) (p : Pins) :
    currCode s p = 0 ∨ currCode s p = 1 ∨ currCode s p = 2 ∨ currCode s p = 3 := by
  unfold currCode
  dsimp only
  cases p.a == s.pinsActive <;> cases p.b == s.pinsActive <;> decide

theorem diff_bits :
    ∀ l ∈ [(0 : Int), 1, 2, 3], ∀ c ∈ [(0 : Int), 1, 2, 3],
      (c = (l + 1) % 4 →
        bitAnd (toInt8 (l - c)) 1 ≠ 0 ∧ bitAnd (toInt8 (l - c)) 2 - 1 = 1) ∧
      (c = (l - 1) % 4 →
        bitAnd (toInt8 (l - c)) 1 ≠ 0 ∧ bitAnd (toInt8 (l - c)) 2 - 1 = -1) ∧
      (c = l → bitAnd (toInt8 (l - c)) 1 = 0) ∧
      (c = (l + 2) % 4 → bitAnd (toInt8 (l - c)) 1 = 0) := by
  decide

theorem mem_codes {x : Int} (h0 : 0 ≤ x) (h3 : x ≤ 3) : x ∈ [(0 : Int), 1, 2, 3] := by
  have : x = 0 ∨ x = 1 ∨ x = 2 ∨ x = 3 := by omega
  simpa using this

theorem currCode_mem (s : ClickEncoder) (p : Pins) : currCode s p ∈ [(0 : Int), 1, 2, 3] := by
  have := currCode_range s p
  simpa using this

theorem serviceGrow_acceleration_eq (s : ClickEncoder) (moved : Bool) :
    (serviceGrow s moved).acceleration =
      if (s.accelerationEnabled && moved) = true then
        (if s.acceleration ≤ ENC_ACCEL_TOP - ENC_ACCEL_INC then
          toUInt16 ((s.acceleration : Int) + ENC_ACCEL_INC) else s.acceleration)
      else s.acceleration := by
  unfold serviceGrow
  split_ifs <;> rfl

theorem service_normal (bld : Build) (s : ClickEncoder) (p : Pins)
    (hb : bld.decoder = Decoder.ENC_NORMAL) :
    (service bld s p).delta =
      (if bitAnd (toInt8 (s.last - currCode s p)) 1 ≠ 0 then
        toInt16 (s.delta + (bitAnd (toInt8 (s.last - currCode s p)) 2 - 1)) else s.delta) ∧
    (service bld s p).last =
      (if bitAnd (toInt8 (s.last - currCode s p)) 1 ≠ 0 then
        toInt16 (currCode s p) else s.last) ∧
    (service bld s p).acceleration =
      (serviceGrow (serviceDecay s)
        (decide (bitAnd (toInt8 (s.last - currCode s p)) 1 ≠ 0))).acceleration ∧
    (service bld s p).pinsActive = s.pinsActive := by
  have hD := serviceDecay_frame s
  have hc : currCode (serviceDecay s) p = currCode s p := currCode_congr s _ p hD.2.2.2.2.1
  rw [service_eq, (serviceButton_frame _ p).1, (serviceButton_frame _ p).2.1,
    (serviceButton_frame _ p).2.2.1, (serviceButton_frame _ p).2.2.2.2.2.1,
    (serviceGrow_frame _ _).1, (serviceGrow_frame _ _).2.1, (serviceGrow_frame _ _).2.2.2.2.1,
    decode_normal bld _ p hb, decodeNormal_eq, hc, hD.1, hD.2.1]
  by_cases h : bitAnd (toInt8 (s.last - currCode s p)) 1 ≠ 0
  · rw [if_pos h, if_pos h, if_pos h]
    refine ⟨rfl, rfl, ?_, hD.2.2.2.2.1⟩
    have hdec : decide (bitAnd (toInt8 (s.last - currCode s p)) 1 ≠ 0) = true :=
      decide_eq_true h
    rw [hdec, serviceGrow_acceleration_eq, serviceGrow_acceleration_eq]
  · rw [if_neg h, if_neg h, if_neg h]
    refine ⟨hD.1, hD.2.1, ?_, hD.2.2.2.2.1⟩
    have hdec : decide (bitAnd (toInt8 (s.last - currCode s p)) 1 ≠ 0) = false :=
      decide_eq_false h
    rw [hdec]

theorem normal_step_cw (bld : Build) (s : ClickEncoder) (p : Pins)
    (hb : bld.decoder = Decoder.ENC_NORMAL) (h0 : 0 ≤ s.last) (h3 : s.last ≤ 3)
    (hc : currCode s p = (s.last + 1) % 4) :
    (service bld s p).last = (s.last + 1) % 4 ∧
    (service bld s p).delta = toInt16 (s.delta + 1) ∧
    (service bld s p).pinsActive = s.pinsActive := by
  obtain ⟨hd, hl, -, hp⟩ := service_normal bld s p hb
  obtain ⟨h1, h2⟩ := (diff_bits s.last (mem_codes h0 h3) (currCode s p) (currCode_mem s p)).1 hc
  rw [hd, hl, if_pos h1, if_pos h1, h2, hc]
  exact ⟨by unfold toInt16; omega, rfl, hp⟩

theorem normal_step_ccw (bld : Build) (s : ClickEncoder) (p : Pins)
    (hb : bld.decoder = Decoder.ENC_NORMAL) (h0 : 0 ≤ s.last) (h3 : s.last ≤ 3)
    (hc : currCode s p = (s.last - 1) % 4) :
    (service bld s p).last = (s.last - 1) % 4 ∧
    (service bld s p).delta = toInt16 (s.delta + -1) ∧
    (service bld s p).pinsActive = s.pinsActive := by
  obtain ⟨hd, hl, -, hp⟩ := service_normal bld s p hb
  obtain ⟨h1, h2⟩ :=
    (diff_bits s.last (mem_codes h0 h3) (currCode s p) (currCode_mem s p)).2.1 hc
  rw [hd, hl, if_pos h1, if_pos h1, h2, hc]
  exact ⟨by unfold toInt16; omega, rfl, hp⟩

theorem normal_step_idle (bld : Build) (s : ClickEncoder) (p : Pins)
    (hb : bld.decoder = Decoder.ENC_NORMAL) (h0 : 0 ≤ s.last) (h3 : s.last ≤ 3)
    (hc : currCode s p = s.last ∨ currCode s p = (s.last + 2) % 4) :
    (service bld s p).last = s.last ∧ (service bld s p).delta = s.delta ∧
    (service bld s p).acceleration = (serviceDecay s).acceleration := by
  obtain ⟨hd, hl, ha, -⟩ := service_normal bld s p hb
  have hall := diff_bits s.last (mem_codes h0 h3) (currCode s p) (currCode_mem s p)
  have h1 : ¬ bitAnd (toInt8 (s.last - currCode s p)) 1 ≠ 0 := by
    rcases hc with hc | hc
    · exact not_not.mpr (hall.2.2.1 hc)
    · exact not_not.mpr (hall.2.2.2 hc)
  rw [hd, hl, ha, if_neg h1, if_neg h1, decide_eq_false h1]
  refine ⟨rfl, rfl, ?_⟩
  unfold serviceGrow
  simp

theorem run_append (bld : Build) (xs ys : List Op) :
    ∀ s : ClickEncoder, run bld s (xs ++ ys) = run bld (run bld s xs) ys := by
  induction xs with
  | nil => intro s; rfl
  | cons x xs ih => intro s; exact ih _

theorem delta_reachable (n : Nat) (hn : n ≤ 32767) :
    ∃ ops : List Op, (run normalBuild idleState ops).delta = n ∧
      (run normalBuild idleState ops).last = (n : Int) % 4 ∧
      (run normalBuild idleState ops).pinsActive = false := by
  induction n with
  | zero => exact ⟨[], by decide, by decide, by decide⟩
  | succ n ih =>
    obtain ⟨ops, hd, hl, hp⟩ := ih (by omega)
    have hcase : ∃ p : Pins, currCode idleState p = ((n : Int) % 4 + 1) % 4 := by
      have h4 : (n : Int) % 4 = 0 ∨ (n : Int) % 4 = 1 ∨ (n : Int) % 4 = 2 ∨ (n : Int) % 4 = 3 := by
        omega
      rcases h4 with h | h | h | h <;> rw [h]
      · exact ⟨cwSample1, by decide⟩
      · exact ⟨cwSample2, by decide⟩
      · exact ⟨cwSample3, by decide⟩
      · exact ⟨cwSample0, by decide⟩
    obtain ⟨p, hpc⟩ := hcase
    have hc : currCode (run normalBuild idleState ops) p =
        ((run normalBuild idleState ops).last + 1) % 4 := by
      rw [currCode_congr idleState _ p (by rw [hp]; rfl), hpc, hl]
    obtain ⟨l1, d1, a1⟩ := normal_step_cw normalBuild _ p rfl (by omega) (by omega) hc
    refine ⟨ops ++ [Op.service p], ?_, ?_, ?_⟩
    · rw [run_append]
      show (service normalBuild (run normalBuild idleState ops) p).delta = _
      rw [d1, hd]
      unfold toInt16
      push_cast
      omega
    · rw [run_append]
      show (service normalBuild (run normalBuild idleState ops) p).last = _
      rw [l1, hl]
      push_cast
      omega
    · rw [run_append]
      show (service normalBuild (run normalBuild idleState ops) p).pinsActive = _
      rw [a1, hp]

theorem int16_max_delta_reachable :
    ∃ ops : List Op, (run normalBuild idleState ops).delta = maxDeltaState.delta ∧
      (run normalBuild idleState ops).last = maxDeltaState.last ∧
      (run normalBuild idleState ops).pinsActive = maxDeltaState.pinsActive := by
  obtain ⟨ops, hd, hl, hp⟩ := delta_reachable 32767 (le_refl _)
  exact ⟨ops, hd, hl.trans (by decide), hp⟩

/-! ## Reading the button and the value -/

theorem getValue_fst (s : ClickEncoder) :
    (getValue s).1 =
      if getValueVal s < 0 then toInt16 (0 - (1 + getValueAccel s))
      else if getValueVal s > 0 then toInt16 (0 + (1 + getValueAccel s)) else 0 := rfl

theorem getValue_snd (s : ClickEncoder) :
    (getValue s).2 = { s with delta := getValueDelta s } := rfl

theorem getValueVal_eq (s : ClickEncoder) (h1 : -32768 ≤ s.delta) (h2 : s.delta ≤ 32767) :
    getValueVal s = (if s.steps = 4 then sar s.delta 2
      else if s.steps = 2 then sar s.delta 1 else s.delta) := by
  unfold getValueVal
  by_cases h4 : s.steps = 4
  · have h2 : s.steps ≠ 2 := by omega
    simp only [h4, h2, if_true, if_false]
    rw [sar_two]
    exact toInt16_of_range (by omega) (by omega)
  · by_cases h2 : s.steps = 2
    · simp only [h2, if_true]
      norm_num
      rw [sar_one]
      exact toInt16_of_range (by omega) (by omega)
    · simp only [h4, h2, if_false]

theorem getValueAccel_eq (s : ClickEncoder) (ha : s.acceleration < 65536) :
    getValueAccel s =
      (if s.accelerationEnabled then ((s.acceleration >>> 8 : Nat) : Int) else 0) ∧
    0 ≤ getValueAccel s ∧ getValueAccel s ≤ 255 := by
  have hb : (0 : Int) ≤ (if s.accelerationEnabled then ((s.acceleration >>> 8 : Nat) : Int) else 0)
      ∧ (if s.accelerationEnabled then ((s.acceleration >>> 8 : Nat) : Int) else 0) ≤ 255 := by
    split
    · rw [shiftRight_eight]; omega
    · omega
  have : getValueAccel s =
      (if s.accelerationEnabled then ((s.acceleration >>> 8 : Nat) : Int) else 0) := by
    unfold getValueAccel
    exact toInt16_of_range (by omega) (by omega)
  rw [this]
  exact ⟨rfl, hb⟩

/-- Claim C1. `get_button` is a one-shot read: it returns the stored button state; the
state it leaves is the old one with the button field set to `Held` if it was `Held` and to
`Open` otherwise, so no other field changes. -/
theorem get_button_one_shot (s : ClickEncoder) :
    (get_button s).1 = s.button ∧
    (get_button s).2 =
      { s with button := if s.button = ButtonType.Held then ButtonType.Held
                         else ButtonType.Open } := by
  refine ⟨rfl, ?_⟩
  unfold get_button
  by_cases h : s.button = ButtonType.Held
  · cases s
    simp_all
  · simp [h]

/-- Claim C2. For every state whose fields hold values of their C types, `getValue`
returns `sign n * (1 + bonus)`, where `n` is the delta shifted right arithmetically by 2
(four steps per notch), by 1 (two steps) or not at all, and `bonus` is `acceleration >> 8`
when acceleration is enabled and 0 otherwise; it returns 0 exactly when `n = 0`. -/
theorem getValue_sign_magnitude (s : ClickEncoder) (h : Valid s) :
    (getValue s).1 =
      Int.sign (if s.steps = 4 then sar s.delta 2
                else if s.steps = 2 then sar s.delta 1 else s.delta) *
        (1 + (if s.accelerationEnabled then ((s.acceleration >>> 8 : Nat) : Int) else 0)) ∧
    ((getValue s).1 = 0 ↔
      (if s.steps = 4 then sar s.delta 2
       else if s.steps = 2 then sar s.delta 1 else s.delta) = 0) := by
  obtain ⟨-, -, -, hd1, hd2, -, -, -, ha, -, -, -⟩ := h
  obtain ⟨hacc, hb0, hb1⟩ := getValueAccel_eq s ha
  rw [← getValueVal_eq s hd1 hd2, ← hacc, getValue_fst]
  generalize getValueVal s = n at *
  generalize getValueAccel s = b at *
  rcases lt_trichotomy n 0 with hn | hn | hn
  · have h1 : toInt16 (0 - (1 + b)) = -(1 + b) := by unfold toInt16; omega
    rw [if_pos hn, h1, Int.sign_eq_neg_one_of_neg hn]
    constructor
    · ring
    · constructor
      · intro; omega
      · intro; omega
  · subst hn
    simp
  · have h1 : toInt16 (0 + (1 + b)) = 1 + b := by unfold toInt16; omega
    have hn' : ¬ n < 0 := by omega
    rw [if_neg hn', if_pos hn, h1, Int.sign_eq_one_of_pos hn]
    constructor
    · ring
    · constructor
      · intro; omega
      · intro; omega

/-- Witness for claim C2: the sample state (delta -5, four steps per notch,
acceleration 600, enabled) is valid, and `getValue` returns -3 on it. -/
theorem getValue_sign_magnitude_witness :
    Valid sampleState ∧ (getValue sampleState).1 = -3 :=
  ⟨by decide, by
    rw [(getValue_sign_magnitude sampleState (by decide)).1]
    decide⟩

/-- Claim C3. `getValue` consumes the delta by floor division. For a 16-bit delta `d`:
with four steps per notch the new delta is `d & 3`, lies in 0..3, the notch count is
`d >> 2` and `d = 4 * (d >> 2) + new delta`; with two steps per notch the same holds with
`d & 1`, 0..1, `d >> 1` and 2; with any other steps value the new delta is 0 and the notch
count is `d`, and the call returns the same value and leaves the same delta as with
steps equal to 1. -/
theorem getValue_floor_division (s : ClickEncoder) (h : Valid s) :
    (s.steps = 4 →
      (getValue s).2.delta = bitAnd s.delta 3 ∧
      0 ≤ (getValue s).2.delta ∧ (getValue s).2.delta ≤ 3 ∧
      getValueVal s = sar s.delta 2 ∧
      s.delta = 4 * sar s.delta 2 + (getValue s).2.delta) ∧
    (s.steps = 2 →
      (getValue s).2.delta = bitAnd s.delta 1 ∧
      0 ≤ (getValue s).2.delta ∧ (getValue s).2.delta ≤ 1 ∧
      getValueVal s = sar s.delta 1 ∧
      s.delta = 2 * sar s.delta 1 + (getValue s).2.delta) ∧
    (s.steps ≠ 4 → s.steps ≠ 2 →
      (getValue s).2.delta = 0 ∧ getValueVal s = s.delta ∧
      (getValue s).1 = (getValue { s with steps := 1 }).1 ∧
      (getValue s).2.delta = (getValue { s with steps := 1 }).2.delta) := by
  obtain ⟨-, -, -, hd1, hd2, -, -, -, -, -, -, -⟩ := h
  have hv := getValueVal_eq s hd1 hd2
  refine ⟨fun h4 => ?_, fun h2 => ?_, fun h4 h2 => ?_⟩
  · have hne : s.steps ≠ 2 := by omega
    have hnd : (getValue s).2.delta = bitAnd s.delta 3 := by
      rw [getValue_snd]
      show getValueDelta s = _
      unfold getValueDelta
      simp only [h4, hne, if_true, if_false]
      rw [bitAnd_three]
      exact toInt16_of_range (by omega) (by omega)
    rw [hv, hnd, bitAnd_three, sar_two]
    simp only [h4, if_true]
    refine ⟨trivial, by omega, by omega, trivial, by omega⟩
  · have hnd : (getValue s).2.delta = bitAnd s.delta 1 := by
      rw [getValue_snd]
      show getValueDelta s = _
      unfold getValueDelta
      simp only [h2, if_true]
      rw [bitAnd_one]
      exact toInt16_of_range (by omega) (by omega)
    rw [hv, hnd, bitAnd_one, sar_one]
    simp only [h2, if_true]
    norm_num
    refine ⟨by omega, by omega, by omega⟩
  · have hnd : getValueDelta s = 0 := by
      unfold getValueDelta
      simp only [h4, h2, if_false]
    have hnd1 : getValueDelta { s with steps := 1 } = 0 := by
      unfold getValueDelta
      simp
    have hv1 : getValueVal { s with steps := 1 } = s.delta := by
      unfold getValueVal
      simp
    have hvs : getValueVal s = s.delta := by
      rw [hv]; simp only [h4, h2, if_false]
    refine ⟨?_, hvs, ?_, ?_⟩
    · rw [getValue_snd]; exact hnd
    · rw [getValue_fst, getValue_fst, hvs, hv1]
      rfl
    · rw [getValue_snd, getValue_snd]
      show getValueDelta s = getValueDelta { s with steps := 1 }
      rw [hnd, hnd1]

/-- Witness for claim C3: the sample state (delta -5, four steps per notch) is valid;
the call leaves delta 3 and counts -2 notches, and -5 = 4 * (-2) + 3. -/
theorem getValue_floor_division_witness :
    Valid sampleState ∧ (getValue sampleState).2.delta = 3 ∧
      getValueVal sampleState = -2 := by
  have h := (getValue_floor_division sampleState (by decide)).1 (by decide)
  refine ⟨by decide, ?_, ?_⟩
  · rw [h.1]; decide
  · rw [h.2.2.2.1]; decide

/-- Claim C4. For every state and every steps-per-notch value, a second call of
`getValue` directly after a first one returns 0. -/
theorem getValue_twice_zero (s : ClickEncoder) : (getValue (getValue s).2).1 = 0 := by
  have hr : 0 ≤ getValueDelta s ∧ getValueDelta s ≤ 3 ∧
      (s.steps = 2 → getValueDelta s ≤ 1) ∧ (s.steps ≠ 2 → s.steps ≠ 4 → getValueDelta s = 0) := by
    unfold getValueDelta
    by_cases h2 : s.steps = 2
    · simp only [h2, if_true]
      rw [bitAnd_one]
      unfold toInt16
      omega
    · by_cases h4 : s.steps = 4
      · simp only [h2, h4, if_true, if_false]
        rw [bitAnd_three]
        unfold toInt16
        omega
      · simp only [h2, h4, if_false]
        exact ⟨le_refl 0, by omega, fun _ => by omega, fun _ _ => trivial⟩
  have hv : getValueVal (getValue s).2 = 0 := by
    rw [getValue_snd]
    unfold getValueVal
    show (if s.steps = 2 then toInt16 (sar (if s.steps = 4 then
      toInt16 (sar (getValueDelta s) 2) else getValueDelta s) 1)
      else (if s.steps = 4 then toInt16 (sar (getValueDelta s) 2) else getValueDelta s)) = 0
    by_cases h2 : s.steps = 2
    · have h4 : s.steps ≠ 4 := by omega
      simp only [h2, if_true]
      norm_num
      rw [sar_one]
      have := hr.2.2.1 h2
      unfold toInt16
      omega
    · by_cases h4 : s.steps = 4
      · simp only [h2, h4, if_true, if_false]
        rw [sar_two]
        unfold toInt16
        omega
      · simp only [h2, h4, if_false]
        exact hr.2.2.2 h2 h4
  rw [getValue_fst, hv]
  simp

/-! ## Acceleration: the disabled mode and the ceiling -/

theorem getValue_disabled (s : ClickEncoder) (h : s.accelerationEnabled = false) :
    (getValue s).1 = -1 ∨ (getValue s).1 = 0 ∨ (getValue s).1 = 1 := by
  have ha : getValueAccel s = 0 := by
    unfold getValueAccel
    rw [h]
    simp only [Bool.false_eq_true, if_false]
    decide
  rw [getValue_fst, ha]
  split_ifs
  · left; decide
  · right; right; decide
  · right; left; rfl

theorem step_disabled (bld : Build) (s : ClickEncoder) (op : Op)
    (hop : op ≠ Op.setAccelerationEnabled true)
    (h : s.accelerationEnabled = false ∧ s.acceleration = 0) :
    (step bld s op).2.accelerationEnabled = false ∧ (step bld s op).2.acceleration = 0 := by
  cases op with
  | service p =>
    have := service_acceleration_disabled bld s p h.1
    exact ⟨this.1, this.2.trans h.2⟩
  | getValue => exact h
  | get_button =>
    show (get_button s).2.accelerationEnabled = false ∧ (get_button s).2.acceleration = 0
    rw [(get_button_frame s).1, (get_button_frame s).2]
    exact h
  | setDoubleClickEnabled d => exact h
  | setAccelerationEnabled a =>
    cases a with
    | true => exact absurd rfl hop
    | false => exact ⟨rfl, rfl⟩

theorem run_disabled (bld : Build) (ops : List Op) :
    ∀ s : ClickEncoder, (∀ op ∈ ops, op ≠ Op.setAccelerationEnabled true) →
      s.accelerationEnabled = false ∧ s.acceleration = 0 →
      (run bld s ops).acceleration = 0 ∧
      ∀ v, Out.value v ∈ outputs bld s ops → v = -1 ∨ v = 0 ∨ v = 1 := by
  induction ops with
  | nil =>
    intro s _ h
    exact ⟨h.2, fun v hv => by simp [outputs] at hv⟩
  | cons op ops ih =>
    intro s hops h
    have hop := hops op (List.mem_cons_self op ops)
    have hrest : ∀ o ∈ ops, o ≠ Op.setAccelerationEnabled true :=
      fun o ho => hops o (List.mem_cons_of_mem op ho)
    have ih' := ih (step bld s op).2 hrest (step_disabled bld s op hop h)
    refine ⟨ih'.1, ?_⟩
    intro v hv
    simp only [outputs, List.mem_cons] at hv
    rcases hv with hv | hv
    · cases op with
      | getValue =>
        have hv' : v = (getValue s).1 := by
          simpa [step] using hv
        rw [hv']
        exact getValue_disabled s h.1
      | service p => simp [step] at hv
      | get_button => simp [step] at hv
      | setDoubleClickEnabled d => simp [step] at hv
      | setAccelerationEnabled a => simp [step] at hv
    · exact ih'.2 v hv

/-- Claim C5. After `setAccelerationEnabled(false)`, along every sequence of calls that
does not enable acceleration again (service ticks with any samples, `getValue`,
`get_button`, `setDoubleClickEnabled`), the acceleration counter is 0 after every prefix
of the sequence and every value returned by `getValue` is -1, 0 or 1. -/
theorem disabled_acceleration_unit_magnitude (bld : Build) (s : ClickEncoder)
    (ops : List Op) (h : ∀ op ∈ ops, op ≠ Op.setAccelerationEnabled true) :
    (∀ n, (run bld (setAccelerationEnabled s false) (ops.take n)).acceleration = 0) ∧
    ∀ v, Out.value v ∈ outputs bld (setAccelerationEnabled s false) ops →
      v = -1 ∨ v = 0 ∨ v = 1 := by
  have h0 : (setAccelerationEnabled s false).accelerationEnabled = false ∧
      (setAccelerationEnabled s false).acceleration = 0 := ⟨rfl, rfl⟩
  refine ⟨fun n => ?_, (run_disabled bld ops _ h h0).2⟩
  exact (run_disabled bld (ops.take n) _
    (fun op hop => h op (List.mem_of_mem_take hop)) h0).1

/-- Witness for claim C5: from the sample state (acceleration 600) with acceleration
switched off, two clockwise ticks, a read, one more tick and a second read. -/
theorem disabled_acceleration_unit_magnitude_witness :
    (∀ op ∈ sampleOps, op ≠ Op.setAccelerationEnabled true) ∧
    (run normalBuild (setAccelerationEnabled sampleState false) sampleOps).acceleration = 0 ∧
    outputs normalBuild (setAccelerationEnabled sampleState false) sampleOps =
      [Out.none, Out.none, Out.value (-1), Out.none, Out.value 0] := by
  have hops : ∀ op ∈ sampleOps, op ≠ Op.setAccelerationEnabled true := by decide
  have h := disabled_acceleration_unit_magnitude normalBuild sampleState sampleOps hops
  refine ⟨hops, ?_, by decide⟩
  have h5 := h.1 5
  simpa [sampleOps] using h5

theorem step_acceleration_le (bld : Build) (s : ClickEncoder) (op : Op)
    (h : s.acceleration ≤ ENC_ACCEL_TOP) : (step bld s op).2.acceleration ≤ ENC_ACCEL_TOP := by
  unfold ENC_ACCEL_TOP at *
  cases op with
  | service p => exact service_acceleration_le bld s p h
  | getValue => exact h
  | get_button =>
    show (get_button s).2.acceleration ≤ 3072
    rw [(get_button_frame s).2]
    exact h
  | setDoubleClickEnabled d => exact h
  | setAccelerationEnabled a =>
    cases a with
    | true => exact h
    | false => exact Nat.zero_le _

theorem run_acceleration_le (bld : Build) (ops : List Op) :
    ∀ s : ClickEncoder, s.acceleration ≤ ENC_ACCEL_TOP →
      (run bld s ops).acceleration ≤ ENC_ACCEL_TOP := by
  induction ops with
  | nil => intro s h; exact h
  | cons op ops ih => intro s h; exact ih _ (step_acceleration_le bld s op h)

/-- Claim C6. The bound `acceleration <= 3072` is an invariant: the constructed state has
acceleration 0, every call (a service tick with any samples, `getValue`, `get_button`,
either setter) preserves the bound, and so it holds after every sequence of calls made
on a constructed encoder. -/
theorem acceleration_le_top (bld : Build) (A B buttonPin stepsPerNotch : Nat)
    (active readA readB : Bool) (st : Statics) :
    (new A B buttonPin stepsPerNotch active readA readB st).acceleration = 0 ∧
    (∀ (s : ClickEncoder) (op : Op), s.acceleration ≤ 3072 →
      (step bld s op).2.acceleration ≤ 3072) ∧
    ∀ ops : List Op,
      (run bld (new A B buttonPin stepsPerNotch active readA readB st) ops).acceleration
        ≤ 3072 :=
  ⟨rfl, fun s op h => step_acceleration_le bld s op h,
    fun ops => run_acceleration_le bld ops _ (Nat.zero_le _)⟩

/-- Witness for claim C6: the sample state has acceleration 600, and a service tick
that moves the encoder leaves it at 623, below the ceiling. -/
theorem acceleration_le_top_witness :
    sampleState.acceleration ≤ 3072 ∧
    (step normalBuild sampleState (Op.service cwSample1)).2.acceleration ≤ 3072 :=
  ⟨by decide,
    (acceleration_le_top normalBuild 1 2 3 4 false true true zeroStatics).2.1 sampleState
      (Op.service cwSample1) (by decide)⟩

/-! ## The normal decoder -/

/-- Counterexample to claim C7 as stated: in a valid state with `_last` 3 and delta 32767,
a tick whose sample has code 0 (one pin changed, `curr = last + 1 mod 4`) leaves delta
at -32768, not at 32768: the 16-bit delta wraps. -/
theorem single_step_wraps_at_int16_max :
    Valid maxDeltaState ∧ maxDeltaState.last = 3 ∧ maxDeltaState.delta = 32767 ∧
    currCode maxDeltaState cwSample0 = (maxDeltaState.last + 1) % 4 ∧
    (service normalBuild maxDeltaState cwSample0).delta = -32768 ∧
    (service normalBuild maxDeltaState cwSample0).delta ≠ maxDeltaState.delta + 1 := by
  decide

/-- Claim C7 (amended). Normal decoder, `_last` in 0..3, fields within their C types. The
code of a sample is `(3 if A active else 0) XOR (1 if B active else 0)`. A tick with
`curr = last + 1 mod 4` sets `_last` to `curr` and adds 1 to delta in 16-bit arithmetic,
which is exactly +1 whenever delta < 32767; a tick with `curr = last - 1 mod 4` sets
`_last` to `curr` and subtracts 1 in 16-bit arithmetic, exactly -1 whenever
delta > -32768; a tick with `curr = last` changes neither delta nor `_last`. -/
theorem normal_decoder_single_step (bld : Build) (s : ClickEncoder) (p : Pins)
    (hb : bld.decoder = Decoder.ENC_NORMAL) (hv : Valid s)
    (h0 : 0 ≤ s.last) (h3 : s.last ≤ 3) :
    currCode s p = bitXor (if p.a == s.pinsActive then 3 else 0)
      (if p.b == s.pinsActive then 1 else 0) ∧
    (currCode s p = (s.last + 1) % 4 →
      (service bld s p).last = currCode s p ∧
      (service bld s p).delta = toInt16 (s.delta + 1) ∧
      (s.delta < 32767 → (service bld s p).delta = s.delta + 1)) ∧
    (currCode s p = (s.last - 1) % 4 →
      (service bld s p).last = currCode s p ∧
      (service bld s p).delta = toInt16 (s.delta - 1) ∧
      (-32768 < s.delta → (service bld s p).delta = s.delta - 1)) ∧
    (currCode s p = s.last →
      (service bld s p).last = s.last ∧ (service bld s p).delta = s.delta) := by
  obtain ⟨-, -, -, hd1, hd2, -, -, -, -, -, -, -⟩ := hv
  refine ⟨?_, fun hc => ?_, fun hc => ?_, fun hc => ?_⟩
  · unfold currCode
    dsimp only
    cases p.a == s.pinsActive <;> cases p.b == s.pinsActive <;> decide
  · obtain ⟨hl, hd, -⟩ := normal_step_cw bld s p hb h0 h3 hc
    refine ⟨hl.trans hc.symm, hd, fun hlt => ?_⟩
    rw [hd]
    exact toInt16_of_range (by omega) (by omega)
  · obtain ⟨hl, hd, -⟩ := normal_step_ccw bld s p hb h0 h3 hc
    refine ⟨hl.trans hc.symm, hd, fun hlt => ?_⟩
    rw [hd]
    unfold toInt16
    omega
  · obtain ⟨hl, hd, -⟩ := normal_step_idle bld s p hb h0 h3 (Or.inl hc)
    exact ⟨hl, hd⟩

/-- Witness for claim C7: the sample state (delta -5, `_last` 0) is valid; the sample with
code 1 moves delta to -4 and `_last` to 1. -/
theorem normal_decoder_single_step_witness :
    normalBuild.decoder = Decoder.ENC_NORMAL ∧ Valid sampleState ∧
    0 ≤ sampleState.last ∧ sampleState.last ≤ 3 ∧
    (service normalBuild sampleState cwSample1).delta = sampleState.delta + 1 := by
  have h := normal_decoder_single_step normalBuild sampleState cwSample1 rfl
    (by decide) (by decide) (by decide)
  exact ⟨rfl, by decide, by decide, by decide, (h.2.1 (by decide)).2.2 (by decide)⟩

/-- Counterexample to claim C8 as stated: from the constructed state (delta 0, `_last` 0)
the four single-pin transitions 0 -> 1 -> 2 -> 3 -> 0 of one full cycle leave delta
at 4, not at 1; the reverse cycle leaves it at -4, not at -1. -/
theorem normal_decoder_full_cycle_counts_four :
    idleState.delta = 0 ∧ idleState.last = 0 ∧
    (run normalBuild idleState
      [Op.service cwSample1, Op.service cwSample2, Op.service cwSample3,
       Op.service cwSample0]).delta = 4 ∧
    (run normalBuild idleState
      [Op.service cwSample1, Op.service cwSample2, Op.service cwSample3,
       Op.service cwSample0]).delta ≠ idleState.delta + 1 ∧
    (run normalBuild idleState
      [Op.service cwSample3, Op.service cwSample2, Op.service cwSample1,
       Op.service cwSample0]).delta = -4 ∧
    (run normalBuild idleState
      [Op.service cwSample3, Op.service cwSample2, Op.service cwSample1,
       Op.service cwSample0]).delta ≠ idleState.delta - 1 := by
  decide

/-- Claim C8 (amended). Normal decoder, `_last` in 0..3, fields within their C types. Four
ticks whose samples walk one full cycle by single-pin transitions in the counting-up
direction (codes `last+1`, `last+2`, `last+3`, `last` mod 4) return `_last` to its start
and add 4 to delta in 16-bit arithmetic, exactly +4 whenever delta <= 32763; the
cycle in the other direction subtracts 4, exactly -4 whenever delta >= -32764. -/
theorem normal_decoder_full_cycle (bld : Build) (s : ClickEncoder) (p1 p2 p3 p4 : Pins)
    (hb : bld.decoder = Decoder.ENC_NORMAL) (hv : Valid s)
    (h0 : 0 ≤ s.last) (h3 : s.last ≤ 3) :
    (currCode s p1 = (s.last + 1) % 4 → currCode s p2 = (s.last + 2) % 4 →
      currCode s p3 = (s.last + 3) % 4 → currCode s p4 = s.last →
      (run bld s [Op.service p1, Op.service p2, Op.service p3, Op.service p4]).last
        = s.last ∧
      (run bld s [Op.service p1, Op.service p2, Op.service p3, Op.service p4]).delta
        = toInt16 (s.delta + 4) ∧
      (s.delta ≤ 32763 →
        (run bld s [Op.service p1, Op.service p2, Op.service p3, Op.service p4]).delta
          = s.delta + 4)) ∧
    (currCode s p1 = (s.last - 1) % 4 → currCode s p2 = (s.last - 2) % 4 →
      currCode s p3 = (s.last - 3) % 4 → currCode s p4 = s.last →
      (run bld s [Op.service p1, Op.service p2, Op.service p3, Op.service p4]).last
        = s.last ∧
      (run bld s [Op.service p1, Op.service p2, Op.service p3, Op.service p4]).delta
        = toInt16 (s.delta - 4) ∧
      (-32764 ≤ s.delta →
        (run bld s [Op.service p1, Op.service p2, Op.service p3, Op.service p4]).delta
          = s.delta - 4)) := by
  obtain ⟨-, -, -, hd1, hd2, -, -, -, -, -, -, -⟩ := hv
  have hrun : run bld s [Op.service p1, Op.service p2, Op.service p3, Op.service p4] =
      service bld (service bld (service bld (service bld s p1) p2) p3) p4 := rfl
  rw [hrun]
  constructor
  · intro c1 c2 c3 c4
    obtain ⟨l1, d1, a1⟩ := normal_step_cw bld s p1 hb h0 h3 c1
    have e2 : currCode (service bld s p1) p2 = ((service bld s p1).last + 1) % 4 := by
      rw [currCode_congr s _ p2 a1, c2, l1]; omega
    obtain ⟨l2, d2, a2⟩ := normal_step_cw bld _ p2 hb (by omega) (by omega) e2
    have e3 : currCode (service bld (service bld s p1) p2) p3 =
        ((service bld (service bld s p1) p2).last + 1) % 4 := by
      rw [currCode_congr s _ p3 (a2.trans a1), c3, l2, l1]; omega
    obtain ⟨l3, d3, a3⟩ := normal_step_cw bld _ p3 hb (by omega) (by omega) e3
    have e4 : currCode (service bld (service bld (service bld s p1) p2) p3) p4 =
        ((service bld (service bld (service bld s p1) p2) p3).last + 1) % 4 := by
      rw [currCode_congr s _ p4 (a3.trans (a2.trans a1)), c4, l3, l2, l1]; omega
    obtain ⟨l4, d4, -⟩ := normal_step_cw bld _ p4 hb (by omega) (by omega) e4
    have hd : (service bld (service bld (service bld (service bld s p1) p2) p3) p4).delta =
        toInt16 (s.delta + 4) := by
      rw [d4, d3, d2, d1]; unfold toInt16; omega
    refine ⟨by rw [l4, l3, l2, l1]; omega, hd, fun hle => ?_⟩
    rw [hd]; unfold toInt16; omega
  · intro c1 c2 c3 c4
    obtain ⟨l1, d1, a1⟩ := normal_step_ccw bld s p1 hb h0 h3 c1
    have e2 : currCode (service bld s p1) p2 = ((service bld s p1).last - 1) % 4 := by
      rw [currCode_congr s _ p2 a1, c2, l1]; omega
    obtain ⟨l2, d2, a2⟩ := normal_step_ccw bld _ p2 hb (by omega) (by omega) e2
    have e3 : currCode (service bld (service bld s p1) p2) p3 =
        ((service bld (service bld s p1) p2).last - 1) % 4 := by
      rw [currCode_congr s _ p3 (a2.trans a1), c3, l2, l1]; omega
    obtain ⟨l3, d3, a3⟩ := normal_step_ccw bld _ p3 hb (by omega) (by omega) e3
    have e4 : currCode (service bld (service bld (service bld s p1) p2) p3) p4 =
        ((service bld (service bld (service bld s p1) p2) p3).last - 1) % 4 := by
      rw [currCode_congr s _ p4 (a3.trans (a2.trans a1)), c4, l3, l2, l1]; omega
    obtain ⟨l4, d4, -⟩ := normal_step_ccw bld _ p4 hb (by omega) (by omega) e4
    have hd : (service bld (service bld (service bld (service bld s p1) p2) p3) p4).delta =
        toInt16 (s.delta - 4) := by
      rw [d4, d3, d2, d1]; unfold toInt16; omega
    refine ⟨by rw [l4, l3, l2, l1]; omega, hd, fun hle => ?_⟩
    rw [hd]; unfold toInt16; omega

/-- Witness for claim C8: from the sample state (delta -5, `_last` 0) the cycle through
the codes 1, 2, 3, 0 leaves delta at -5 + 4. -/
theorem normal_decoder_full_cycle_witness :
    normalBuild.decoder = Decoder.ENC_NORMAL ∧ Valid sampleState ∧
    0 ≤ sampleState.last ∧ sampleState.last ≤ 3 ∧
    (run normalBuild sampleState
      [Op.service cwSample1, Op.service cwSample2, Op.service cwSample3,
       Op.service cwSample0]).delta = sampleState.delta + 4 := by
  have h := normal_decoder_full_cycle normalBuild sampleState cwSample1 cwSample2 cwSample3
    cwSample0 rfl (by decide) (by decide) (by decide)
  exact ⟨rfl, by decide, by decide, by decide,
    (h.1 (by decide) (by decide) (by decide) (by decide)).2.2 (by decide)⟩

/-! ## Bounce tolerance and the table decoder -/

/-- Claim C10, the code at the failing input. Table decoder, constructed state (delta 0,
`_last` 0), sample with pin A active and pin B inactive: the index is 2, the table entry
is -1, and the tick leaves delta at 255 instead of -1, because the entry is read into an
unsigned byte. -/
theorem flaky_decoder_negative_entry_adds_255 :
    flakyBuild.decoder = Decoder.ENC_FLAKY ∧ idleState.delta = 0 ∧
    flakyIndex idleState cwSample3 = 2 ∧
    (table flakyBuild).getD 2 0 = -1 ∧
    pgm_read_byte flakyBuild 2 = 255 ∧
    (service flakyBuild idleState cwSample3).delta = 255 ∧
    (service flakyBuild idleState cwSample3).delta ≠ idleState.delta + (-1) := by
  decide

/-! ## The button classifier: one tick -/

theorem serviceDecay_update (s : ClickEncoder) :
    ∃ z : Nat, serviceDecay s = { s with acceleration := z } := by
  unfold serviceDecay
  dsimp only
  split_ifs
  · exact ⟨_, rfl⟩
  · exact ⟨_, rfl⟩
  · exact ⟨s.acceleration, rfl⟩

theorem serviceGrow_update (s : ClickEncoder) (moved : Bool) :
    ∃ z : Nat, serviceGrow s moved = { s with acceleration := z } := by
  unfold serviceGrow
  split_ifs
  · exact ⟨_, rfl⟩
  · exact ⟨s.acceleration, rfl⟩
  · exact ⟨s.acceleration, rfl⟩

theorem decode_update (bld : Build) (s : ClickEncoder) (p : Pins) :
    ∃ x y : Int, (decode bld s p).1 = { s with delta := x, last := y } := by
  rcases hd : bld.decoder with _ | _
  · rw [decode_normal bld s p hd, decodeNormal_eq]
    by_cases h : bitAnd (toInt8 (s.last - currCode s p)) 1 ≠ 0
    · rw [if_pos h]
      exact ⟨_, _, rfl⟩
    · rw [if_neg h]
      exact ⟨s.delta, s.last, rfl⟩
  · rw [decode_flaky bld s p hd, decodeFlaky_eq]
    by_cases h : pgm_read_byte bld (flakyIndex s p) ≠ 0
    · rw [if_pos h]
      exact ⟨_, _, rfl⟩
    · rw [if_neg h]
      exact ⟨s.delta, _, rfl⟩

theorem service_update (bld : Build) (s : ClickEncoder) (p : Pins) :
    ∃ (x y : Int) (z : Nat),
      service bld s p = serviceButton { s with delta := x, last := y, acceleration := z } p := by
  obtain ⟨z1, h1⟩ := serviceDecay_update s
  obtain ⟨x, y, h2⟩ := decode_update bld (serviceDecay s) p
  obtain ⟨z2, h3⟩ := serviceGrow_update (decode bld (serviceDecay s) p).1
    (decode bld (serviceDecay s) p).2
  refine ⟨x, y, z2, ?_⟩
  rw [service_eq, h3, h2, h1]

theorem service_config (bld : Build) (s : ClickEncoder) (p : Pins) :
    (service bld s p).pinBTN = s.pinBTN ∧ (service bld s p).pinsActive = s.pinsActive ∧
    (service bld s p).doubleClickEnabled = s.doubleClickEnabled := by
  obtain ⟨x, y, z, h⟩ := service_update bld s p
  have hs := serviceButton_frame { s with delta := x, last := y, acceleration := z } p
  rw [h]
  exact ⟨hs.2.2.2.2.2.2.1, hs.2.2.2.2.2.1, hs.2.2.2.2.2.2.2⟩

theorem serviceButton_eq (s : ClickEncoder) (p : Pins) :
    serviceButton s p = if buttonDue s p then buttonWindow (windowEntry s p) else s := rfl

theorem beq_self_true (b : Bool) : (b == b) = true := by cases b <;> rfl

theorem beq_not_self (b : Bool) : (b == !b) = false := by cases b <;> rfl

theorem not_beq_self (b : Bool) : ((!b) == b) = false := by cases b <;> rfl

theorem windowEntry_down (s : ClickEncoder) (p : Pins)
    (h1 : p.btnDown = s.pinsActive) (h2 : p.btnUp = s.pinsActive) :
    windowEntry s p = buttonDown { s with last_buttonCheck := toUInt32 p.now } := by
  unfold windowEntry
  dsimp only
  rw [h1, h2, beq_self_true, if_pos rfl, (buttonDown_frame _).2.2.2.2.2.1]
  dsimp only
  rw [beq_not_self]
  rfl

theorem windowEntry_up (s : ClickEncoder) (p : Pins)
    (h1 : p.btnDown = !s.pinsActive) (h2 : p.btnUp = !s.pinsActive) :
    windowEntry s p = buttonUp { s with last_buttonCheck := toUInt32 p.now } := by
  unfold windowEntry
  dsimp only
  rw [h1, h2, not_beq_self]
  simp only [Bool.false_eq_true, if_false, beq_self_true, if_true]

theorem buttonDown_fields (t : ClickEncoder) :
    (buttonDown t).keyDownTicks = (t.keyDownTicks + 1) % 65536 ∧
    (buttonDown t).doubleClickTicks = t.doubleClickTicks ∧
    (buttonDown t).last_buttonCheck = t.last_buttonCheck ∧
    (buttonDown t).button =
      if 120 < (t.keyDownTicks + 1) % 65536 then ButtonType.Held else t.button := by
  have hu : toUInt16 ((t.keyDownTicks : Int) + 1) = (t.keyDownTicks + 1) % 65536 := by
    unfold toUInt16; omega
  unfold buttonDown
  dsimp only
  rw [hu]
  have h120 : ENC_HOLDTIME / ENC_buttonINTERVAL = 120 := by decide
  rw [h120]
  by_cases h : 120 < (t.keyDownTicks + 1) % 65536
  · rw [if_pos h, if_pos h]
    exact ⟨rfl, rfl, rfl, rfl⟩
  · rw [if_neg h, if_neg h]
    exact ⟨rfl, rfl, rfl, rfl⟩

theorem buttonWindow_fields (t : ClickEncoder) (h1 : t.doubleClickTicks ≠ 1)
    (h2 : t.doubleClickTicks < 256) :
    (buttonWindow t).keyDownTicks = t.keyDownTicks ∧
    (buttonWindow t).doubleClickTicks = t.doubleClickTicks - 2 ∧
    (buttonWindow t).last_buttonCheck = t.last_buttonCheck ∧
    (buttonWindow t).button = if t.doubleClickTicks = 2 then ButtonType.Open else t.button := by
  unfold buttonWindow
  dsimp only
  by_cases h0 : t.doubleClickTicks > 0
  · rw [if_pos h0]
    have hu : toUInt8 ((toUInt8 ((t.doubleClickTicks : Int) - 1) : Int) - 1) =
        t.doubleClickTicks - 2 := by
      unfold toUInt8; omega
    rw [hu]
    by_cases h : t.doubleClickTicks = 2
    · rw [if_pos (by omega), if_pos h]
      exact ⟨rfl, rfl, rfl, rfl⟩
    · rw [if_neg (by omega), if_neg h]
      exact ⟨rfl, rfl, rfl, rfl⟩
  · rw [if_neg h0, if_neg (by omega)]
    refine ⟨rfl, ?_, rfl, rfl⟩
    omega

theorem buttonWindow_wrap (t : ClickEncoder) (h1 : t.doubleClickTicks = 1) :
    (buttonWindow t).keyDownTicks = t.keyDownTicks ∧
    (buttonWindow t).doubleClickTicks = 255 ∧
    (buttonWindow t).last_buttonCheck = t.last_buttonCheck ∧
    (buttonWindow t).button = t.button := by
  unfold buttonWindow
  dsimp only
  rw [h1]
  exact ⟨rfl, rfl, rfl, rfl⟩

theorem buttonUp_idle (t : ClickEncoder) (hk : t.keyDownTicks = 0) :
    (buttonUp t).keyDownTicks = 0 ∧ (buttonUp t).doubleClickTicks = t.doubleClickTicks ∧
    (buttonUp t).last_buttonCheck = t.last_buttonCheck ∧ (buttonUp t).button = t.button := by
  unfold buttonUp
  dsimp only
  rw [if_neg (by simp [hk])]
  exact ⟨rfl, rfl, rfl, rfl⟩

theorem buttonUp_held (t : ClickEncoder) (hk : t.keyDownTicks ≠ 0)
    (hb : t.button = ButtonType.Held) :
    (buttonUp t).keyDownTicks = 0 ∧ (buttonUp t).doubleClickTicks = 0 ∧
    (buttonUp t).last_buttonCheck = t.last_buttonCheck ∧
    (buttonUp t).button = ButtonType.Released := by
  unfold buttonUp
  dsimp only
  rw [if_pos hk, if_pos hb]
  exact ⟨rfl, rfl, rfl, rfl⟩

theorem buttonUp_first (t : ClickEncoder) (hk : t.keyDownTicks ≠ 0)
    (hb : t.button ≠ ButtonType.Held) (hd : t.doubleClickTicks ≤ 1) :
    (buttonUp t).keyDownTicks = 0 ∧
    (buttonUp t).doubleClickTicks = (if t.doubleClickEnabled then 60 else 1) ∧
    (buttonUp t).last_buttonCheck = t.last_buttonCheck ∧ (buttonUp t).button = t.button := by
  have h1 : ¬ t.doubleClickTicks > ENC_SINGLECLICKONLY := by
    unfold ENC_SINGLECLICKONLY; omega
  unfold buttonUp
  dsimp only
  rw [if_pos hk, if_neg hb, if_neg h1]
  exact ⟨rfl, rfl, rfl, rfl⟩

theorem buttonUp_double (t : ClickEncoder) (hk : t.keyDownTicks ≠ 0)
    (hb : t.button ≠ ButtonType.Held) (hd1 : 1 < t.doubleClickTicks)
    (hd2 : t.doubleClickTicks < 60) :
    (buttonUp t).keyDownTicks = 0 ∧ (buttonUp t).doubleClickTicks = 0 ∧
    (buttonUp t).last_buttonCheck = t.last_buttonCheck ∧
    (buttonUp t).button = ButtonType.DoubleClicked := by
  have h1 : t.doubleClickTicks > ENC_SINGLECLICKONLY := by
    unfold ENC_SINGLECLICKONLY; omega
  have h2 : t.doubleClickTicks < ENC_DOUBLECLICKTIME / ENC_buttonINTERVAL := by
    have : ENC_DOUBLECLICKTIME / ENC_buttonINTERVAL = 60 := by decide
    omega
  unfold buttonUp
  dsimp only
  rw [if_pos hk, if_neg hb, if_pos h1, if_pos h2]
  exact ⟨rfl, rfl, rfl, rfl⟩

/-! ### One service tick, by regime -/

theorem service_not_due (bld : Build) (s : ClickEncoder) (p : Pins) (h : ¬ buttonDue s p) :
    (service bld s p).keyDownTicks = s.keyDownTicks ∧
    (service bld s p).doubleClickTicks = s.doubleClickTicks ∧
    (service bld s p).last_buttonCheck = s.last_buttonCheck ∧
    (service bld s p).button = s.button := by
  obtain ⟨x, y, z, hs⟩ := service_update bld s p
  have h' : ¬ buttonDue { s with delta := x, last := y, acceleration := z } p := h
  rw [hs, serviceButton_eq, if_neg h']
  exact ⟨rfl, rfl, rfl, rfl⟩

theorem service_due_check (bld : Build) (s : ClickEncoder) (p : Pins) (h : buttonDue s p) :
    (service bld s p).last_buttonCheck = toUInt32 p.now := by
  obtain ⟨x, y, z, hs⟩ := service_update bld s p
  have h' : buttonDue { s with delta := x, last := y, acceleration := z } p := h
  rw [hs, serviceButton_eq, if_pos h']
  have hw : ∀ t : ClickEncoder, (buttonWindow t).last_buttonCheck = t.last_buttonCheck := by
    intro t
    unfold buttonWindow
    dsimp only
    split_ifs <;> rfl
  have hd : ∀ t : ClickEncoder, (buttonDown t).last_buttonCheck = t.last_buttonCheck := by
    intro t
    unfold buttonDown
    dsimp only
    split_ifs <;> rfl
  have hu : ∀ t : ClickEncoder, (buttonUp t).last_buttonCheck = t.last_buttonCheck := by
    intro t
    unfold buttonUp
    dsimp only
    split_ifs <;> rfl
  rw [hw]
  unfold windowEntry
  dsimp only
  split_ifs
  · rw [hu, hd]
  · rw [hd]
  · rw [hu]
  · rfl

theorem service_due_down (bld : Build) (s : ClickEncoder) (p : Pins) (h : buttonDue s p)
    (h1 : p.btnDown = s.pinsActive) (h2 : p.btnUp = s.pinsActive)
    (hd1 : s.doubleClickTicks ≠ 1) (hd2 : s.doubleClickTicks < 256) :
    (service bld s p).keyDownTicks = (s.keyDownTicks + 1) % 65536 ∧
    (service bld s p).doubleClickTicks = s.doubleClickTicks - 2 ∧
    (service bld s p).button =
      (if s.doubleClickTicks = 2 then ButtonType.Open
       else if 120 < (s.keyDownTicks + 1) % 65536 then ButtonType.Held else s.button) := by
  obtain ⟨x, y, z, hs⟩ := service_update bld s p
  have h' : buttonDue { s with delta := x, last := y, acceleration := z } p := h
  rw [hs, serviceButton_eq, if_pos h',
    windowEntry_down { s with delta := x, last := y, acceleration := z } p h1 h2]
  obtain ⟨f1, f2, -, f4⟩ := buttonDown_fields
    { s with delta := x, last := y, acceleration := z, last_buttonCheck := toUInt32 p.now }
  obtain ⟨w1, w2, -, w4⟩ := buttonWindow_fields _ (f2.trans_ne hd1) (f2.trans_lt hd2)
  rw [w1, w2, w4, f1, f2, f4]
  exact ⟨rfl, rfl, rfl⟩

theorem service_due_up_idle (bld : Build) (s : ClickEncoder) (p : Pins) (h : buttonDue s p)
    (h1 : p.btnDown = !s.pinsActive) (h2 : p.btnUp = !s.pinsActive)
    (hk : s.keyDownTicks = 0) (hd1 : s.doubleClickTicks ≠ 1)
    (hd2 : s.doubleClickTicks < 256) :
    (service bld s p).keyDownTicks = 0 ∧
    (service bld s p).doubleClickTicks = s.doubleClickTicks - 2 ∧
    (service bld s p).button =
      (if s.doubleClickTicks = 2 then ButtonType.Open else s.button) := by
  obtain ⟨x, y, z, hs⟩ := service_update bld s p
  have h' : buttonDue { s with delta := x, last := y, acceleration := z } p := h
  rw [hs, serviceButton_eq, if_pos h',
    windowEntry_up { s with delta := x, last := y, acceleration := z } p h1 h2]
  obtain ⟨f1, f2, -, f4⟩ := buttonUp_idle
    { s with delta := x, last := y, acceleration := z, last_buttonCheck := toUInt32 p.now } hk
  obtain ⟨w1, w2, -, w4⟩ := buttonWindow_fields _ (f2.trans_ne hd1) (f2.trans_lt hd2)
  rw [w1, w2, w4, f1, f2, f4]
  exact ⟨rfl, rfl, rfl⟩

theorem service_due_up_held (bld : Build) (s : ClickEncoder) (p : Pins) (h : buttonDue s p)
    (h1 : p.btnDown = !s.pinsActive) (h2 : p.btnUp = !s.pinsActive)
    (hk : s.keyDownTicks ≠ 0) (hb : s.button = ButtonType.Held) :
    (service bld s p).keyDownTicks = 0 ∧ (service bld s p).doubleClickTicks = 0 ∧
    (service bld s p).button = ButtonType.Released := by
  obtain ⟨x, y, z, hs⟩ := service_update bld s p
  have h' : buttonDue { s with delta := x, last := y, acceleration := z } p := h
  rw [hs, serviceButton_eq, if_pos h',
    windowEntry_up { s with delta := x, last := y, acceleration := z } p h1 h2]
  obtain ⟨f1, f2, -, f4⟩ := buttonUp_held
    { s with delta := x, last := y, acceleration := z, last_buttonCheck := toUInt32 p.now }
    hk hb
  obtain ⟨w1, w2, -, w4⟩ := buttonWindow_fields _ (by rw [f2]; decide) (by rw [f2]; decide)
  rw [w1, w2, w4, f1, f2, f4]
  exact ⟨rfl, rfl, rfl⟩

theorem service_due_up_first (bld : Build) (s : ClickEncoder) (p : Pins) (h : buttonDue s p)
    (h1 : p.btnDown = !s.pinsActive) (h2 : p.btnUp = !s.pinsActive)
    (hk : s.keyDownTicks ≠ 0) (hb : s.button ≠ ButtonType.Held)
    (hd : s.doubleClickTicks ≤ 1) :
    (service bld s p).keyDownTicks = 0 ∧
    (service bld s p).doubleClickTicks = (if s.doubleClickEnabled then 58 else 255) ∧
    (service bld s p).button = s.button := by
  obtain ⟨x, y, z, hs⟩ := service_update bld s p
  have h' : buttonDue { s with delta := x, last := y, acceleration := z } p := h
  rw [hs, serviceButton_eq, if_pos h',
    windowEntry_up { s with delta := x, last := y, acceleration := z } p h1 h2]
  obtain ⟨f1, f2, -, f4⟩ := buttonUp_first
    { s with delta := x, last := y, acceleration := z, last_buttonCheck := toUInt32 p.now }
    hk hb hd
  dsimp only at f1 f2 f4
  by_cases he : s.doubleClickEnabled = true
  · rw [if_pos he] at f2
    obtain ⟨w1, w2, -, w4⟩ := buttonWindow_fields _ (by rw [f2]; decide) (by rw [f2]; decide)
    rw [w1, w2, w4, f1, f2, f4, if_pos he]
    exact ⟨rfl, rfl, rfl⟩
  · rw [if_neg he] at f2
    obtain ⟨w1, w2, -, w4⟩ := buttonWindow_wrap _ f2
    rw [w1, w2, w4, f1, f4, if_neg he]
    exact ⟨rfl, rfl, rfl⟩

theorem service_due_up_double (bld : Build) (s : ClickEncoder) (p : Pins) (h : buttonDue s p)
    (h1 : p.btnDown = !s.pinsActive) (h2 : p.btnUp = !s.pinsActive)
    (hk : s.keyDownTicks ≠ 0) (hb : s.button ≠ ButtonType.Held)
    (hd1 : 1 < s.doubleClickTicks) (hd2 : s.doubleClickTicks < 60) :
    (service bld s p).keyDownTicks = 0 ∧ (service bld s p).doubleClickTicks = 0 ∧
    (service bld s p).button = ButtonType.DoubleClicked := by
  obtain ⟨x, y, z, hs⟩ := service_update bld s p
  have h' : buttonDue { s with delta := x, last := y, acceleration := z } p := h
  rw [hs, serviceButton_eq, if_pos h',
    windowEntry_up { s with delta := x, last := y, acceleration := z } p h1 h2]
  obtain ⟨f1, f2, -, f4⟩ := buttonUp_double
    { s with delta := x, last := y, acceleration := z, last_buttonCheck := toUInt32 p.now }
    hk hb hd1 hd2
  obtain ⟨w1, w2, -, w4⟩ := buttonWindow_fields _ (by rw [f2]; decide) (by rw [f2]; decide)
  rw [w1, w2, w4, f1, f2, f4]
  exact ⟨rfl, rfl, rfl⟩

/-! ### Call sequences with a budget of debounce checks -/

theorem buttonChecks_cons (bld : Build) (s : ClickEncoder) (op : Op) (ops : List Op) :
    buttonChecks bld s (op :: ops) =
      buttonChecks bld s [op] + buttonChecks bld (step bld s op).2 ops := by
  cases op <;> simp [buttonChecks, step]

theorem buttonChecks_append (bld : Build) (xs ys : List Op) :
    ∀ s : ClickEncoder, buttonChecks bld s (xs ++ ys) =
      buttonChecks bld s xs + buttonChecks bld (run bld s xs) ys := by
  induction xs with
  | nil => intro s; simp [buttonChecks, run]
  | cons x xs ih =>
    intro s
    rw [List.cons_append, buttonChecks_cons, ih, buttonChecks_cons bld s x xs]
    show _ = _ + buttonChecks bld (run bld (step bld s x).2 xs) ys
    omega

theorem run_budget (bld : Build) (P : Op → Prop) (I : ClickEncoder → Nat → Prop)
    (hstep : ∀ (s : ClickEncoder) (op : Op) (r : Nat), P op →
      I s (buttonChecks bld s [op] + r) → I (step bld s op).2 r) :
    ∀ (ops : List Op) (s : ClickEncoder), (∀ op ∈ ops, P op) →
      I s (buttonChecks bld s ops) →
      I (run bld s ops) 0 ∧ ∀ m, ∃ r, I (run bld s (ops.take m)) r := by
  intro ops
  induction ops with
  | nil =>
    intro s _ h
    exact ⟨h, fun m => ⟨0, by simpa [run] using h⟩⟩
  | cons op ops ih =>
    intro s hP h
    rw [buttonChecks_cons] at h
    have h1 := hstep s op _ (hP op (List.mem_cons_self op ops)) h
    obtain ⟨hfin, hpre⟩ := ih (step bld s op).2
      (fun o ho => hP o (List.mem_cons_of_mem op ho)) h1
    refine ⟨hfin, fun m => ?_⟩
    cases m with
    | zero => exact ⟨_, h⟩
    | succ m => exact hpre m

theorem outputs_budget (bld : Build) (P : Op → Prop) (I : ClickEncoder → Nat → Prop)
    (R : Out → Prop)
    (hstep : ∀ (s : ClickEncoder) (op : Op) (r : Nat), P op →
      I s (buttonChecks bld s [op] + r) → I (step bld s op).2 r)
    (hout : ∀ (s : ClickEncoder) (op : Op) (r : Nat), P op →
      I s (buttonChecks bld s [op] + r) → R (step bld s op).1) :
    ∀ (ops : List Op) (s : ClickEncoder), (∀ op ∈ ops, P op) →
      I s (buttonChecks bld s ops) → ∀ out ∈ outputs bld s ops, R out := by
  intro ops
  induction ops with
  | nil =>
    intro s _ _ out hout'
    simp [outputs] at hout'
  | cons op ops ih =>
    intro s hP h out hmem
    rw [buttonChecks_cons] at h
    have hp := hP op (List.mem_cons_self op ops)
    simp only [outputs, List.mem_cons] at hmem
    rcases hmem with hmem | hmem
    · rw [hmem]
      exact hout s op _ hp h
    · exact ih (step bld s op).2 (fun o ho => hP o (List.mem_cons_of_mem op ho))
        (hstep s op _ hp h) out hmem

theorem get_button_snd (s : ClickEncoder) :
    (get_button s).2.keyDownTicks = s.keyDownTicks ∧
    (get_button s).2.doubleClickTicks = s.doubleClickTicks ∧
    (get_button s).2.last_buttonCheck = s.last_buttonCheck ∧
    (get_button s).2.pinsActive = s.pinsActive ∧
    (get_button s).2.pinBTN = s.pinBTN ∧
    (get_button s).2.doubleClickEnabled = s.doubleClickEnabled ∧
    (get_button s).2.button =
      (if s.button = ButtonType.Held then ButtonType.Held else ButtonType.Open) := by
  unfold get_button
  dsimp only
  by_cases h : s.button = ButtonType.Held
  · rw [if_neg (not_not.mpr h), if_pos h]
    exact ⟨rfl, rfl, rfl, rfl, rfl, rfl, h⟩
  · rw [if_pos h, if_neg h]
    exact ⟨rfl, rfl, rfl, rfl, rfl, rfl, rfl⟩

theorem buttonChecks_service (bld : Build) (s : ClickEncoder) (p : Pins) :
    buttonChecks bld s [Op.service p] = if buttonDue s p then 1 else 0 := by
  simp [buttonChecks]

theorem pinLevel_down (active : Bool) : pinLevel active true = active := rfl

theorem pinLevel_up (active : Bool) : pinLevel active false = !active := rfl

theorem step_service (bld : Build) (s : ClickEncoder) (p : Pins) :
    (step bld s (Op.service p)).2 = service bld s p := rfl

theorem step_get_button (bld : Build) (s : ClickEncoder) :
    (step bld s Op.get_button).2 = (get_button s).2 := rfl

theorem step_getValue (bld : Build) (s : ClickEncoder) :
    (step bld s Op.getValue).2 = (getValue s).2 := rfl

theorem getValue_button_fields (s : ClickEncoder) :
    (getValue s).2.keyDownTicks = s.keyDownTicks ∧
    (getValue s).2.doubleClickTicks = s.doubleClickTicks ∧
    (getValue s).2.last_buttonCheck = s.last_buttonCheck ∧
    (getValue s).2.pinsActive = s.pinsActive ∧
    (getValue s).2.pinBTN = s.pinBTN ∧
    (getValue s).2.doubleClickEnabled = s.doubleClickEnabled ∧
    (getValue s).2.button = s.button :=
  ⟨rfl, rfl, rfl, rfl, rfl, rfl, rfl⟩

/-! ### Phases of a button gesture -/

theorem press_short_step (bld : Build) (active : Bool) (K D : Nat) (s : ClickEncoder) (op : Op)
    (r : Nat) (hp : pinPhase active true op)
    (h : s.pinsActive = active ∧ s.button = ButtonType.Open ∧ s.doubleClickTicks < 256 ∧
      (s.doubleClickTicks % 2 = 0 ∨ 2 * (buttonChecks bld s [op] + r) < s.doubleClickTicks) ∧
      s.keyDownTicks + (buttonChecks bld s [op] + r) = K ∧ K ≤ 120 ∧
      s.doubleClickTicks - 2 * (buttonChecks bld s [op] + r) = D) :
    (step bld s op).2.pinsActive = active ∧ (step bld s op).2.button = ButtonType.Open ∧
    (step bld s op).2.doubleClickTicks < 256 ∧
    ((step bld s op).2.doubleClickTicks % 2 = 0 ∨ 2 * r < (step bld s op).2.doubleClickTicks) ∧
    (step bld s op).2.keyDownTicks + r = K ∧ K ≤ 120 ∧
    (step bld s op).2.doubleClickTicks - 2 * r = D := by
  obtain ⟨ha, hb, hd, hpar, hk, hK, hD⟩ := h
  cases op with
  | service p =>
    obtain ⟨hp1, hp2⟩ := hp
    rw [pinLevel_down, ← ha] at hp1 hp2
    rw [buttonChecks_service] at hpar hk hD
    rw [step_service, (service_config bld s p).2.1]
    by_cases hdue : buttonDue s p
    · rw [if_pos hdue] at hpar hk hD
      obtain ⟨e1, e2, e3⟩ := service_due_down bld s p hdue hp1 hp2 (by omega) hd
      rw [e1, e2, e3, hb]
      have hk1 : (s.keyDownTicks + 1) % 65536 = s.keyDownTicks + 1 := by omega
      rw [hk1]
      refine ⟨ha, ?_, by omega, by omega, by omega, hK, by omega⟩
      split_ifs
      · rfl
      · omega
      · rfl
    · rw [if_neg hdue] at hpar hk hD
      obtain ⟨e1, e2, -, e4⟩ := service_not_due bld s p hdue
      rw [e1, e2, e4]
      exact ⟨ha, hb, hd, by omega, by omega, hK, by omega⟩
  | getValue =>
    have h0 : buttonChecks bld s [Op.getValue] = 0 := rfl
    rw [h0] at hpar hk hD
    obtain ⟨g1, g2, -, g4, -, -, g7⟩ := getValue_button_fields s
    rw [step_getValue, g1, g2, g4, g7]
    exact ⟨ha, hb, hd, by omega, by omega, hK, by omega⟩
  | get_button =>
    have h0 : buttonChecks bld s [Op.get_button] = 0 := rfl
    rw [h0] at hpar hk hD
    obtain ⟨g1, g2, -, g4, -, -, g7⟩ := get_button_snd s
    rw [step_get_button, g1, g2, g4, g7, hb]
    exact ⟨ha, rfl, hd, by omega, by omega, hK, by omega⟩
  | setDoubleClickEnabled d => exact hp.elim
  | setAccelerationEnabled a => exact hp.elim

theorem up_count_step (bld : Build) (active e : Bool) (F : Nat) (s : ClickEncoder) (op : Op)
    (r : Nat) (hp : pinPhase active false op)
    (h : s.pinsActive = active ∧ s.button = ButtonType.Open ∧ s.doubleClickEnabled = e ∧
      s.doubleClickTicks < 256 ∧
      ((s.keyDownTicks ≠ 0 ∧ s.doubleClickTicks = 0 ∧ 1 ≤ buttonChecks bld s [op] + r ∧
          (e = true ∨ 2 * (buttonChecks bld s [op] + r) < 257) ∧
          (if e then 58 else 255) + 2 - 2 * (buttonChecks bld s [op] + r) = F) ∨
       (s.keyDownTicks = 0 ∧
          (s.doubleClickTicks % 2 = 0 ∨
            2 * (buttonChecks bld s [op] + r) < s.doubleClickTicks) ∧
          s.doubleClickTicks - 2 * (buttonChecks bld s [op] + r) = F))) :
    (step bld s op).2.pinsActive = active ∧ (step bld s op).2.button = ButtonType.Open ∧
    (step bld s op).2.doubleClickEnabled = e ∧ (step bld s op).2.doubleClickTicks < 256 ∧
    (((step bld s op).2.keyDownTicks ≠ 0 ∧ (step bld s op).2.doubleClickTicks = 0 ∧ 1 ≤ r ∧
        (e = true ∨ 2 * r < 257) ∧ (if e then 58 else 255) + 2 - 2 * r = F) ∨
     ((step bld s op).2.keyDownTicks = 0 ∧
        ((step bld s op).2.doubleClickTicks % 2 = 0 ∨
          2 * r < (step bld s op).2.doubleClickTicks) ∧
        (step bld s op).2.doubleClickTicks - 2 * r = F)) := by
  obtain ⟨ha, hb, he, hd, hmode⟩ := h
  cases op with
  | service p =>
    obtain ⟨hp1, hp2⟩ := hp
    rw [pinLevel_up, ← ha] at hp1 hp2
    rw [buttonChecks_service] at hmode
    rw [step_service, (service_config bld s p).2.1, (service_config bld s p).2.2]
    by_cases hdue : buttonDue s p
    · rw [if_pos hdue] at hmode
      rcases hmode with ⟨hk, hd0, hr, hwrap, hF⟩ | ⟨hk, hpar, hF⟩
      · obtain ⟨e1, e2, e3⟩ := service_due_up_first bld s p hdue hp1 hp2 hk
          (by rw [hb]; decide) (by omega)
        rw [e1, e2, e3, he]
        refine ⟨ha, hb, rfl, ?_, Or.inr ⟨rfl, ?_, ?_⟩⟩
        · cases e <;> simp
        · cases e
          · right
            simp only [Bool.false_eq_true, if_false]
            rcases hwrap with hw | hw
            · exact absurd hw (by decide)
            · omega
          · left
            rfl
        · cases e
          · simp only [Bool.false_eq_true, if_false] at hF ⊢
            omega
          · simp only [if_true] at hF ⊢
            omega
      · obtain ⟨e1, e2, e3⟩ := service_due_up_idle bld s p hdue hp1 hp2 hk (by omega) hd
        rw [e1, e2, e3, hb]
        refine ⟨ha, ?_, he, by omega, Or.inr ⟨rfl, by omega, by omega⟩⟩
        split_ifs <;> rfl
    · rw [if_neg hdue] at hmode
      obtain ⟨e1, e2, -, e4⟩ := service_not_due bld s p hdue
      rw [e1, e2, e4]
      refine ⟨ha, hb, he, hd, ?_⟩
      rcases hmode with ⟨hk, hd0, hr, hwrap, hF⟩ | ⟨hk, hpar, hF⟩
      · exact Or.inl ⟨hk, hd0, by omega, hwrap.imp id (fun hw => by omega), by omega⟩
      · exact Or.inr ⟨hk, by omega, by omega⟩
  | getValue =>
    have h0 : buttonChecks bld s [Op.getValue] = 0 := rfl
    rw [h0] at hmode
    obtain ⟨g1, g2, -, g4, -, g6, g7⟩ := getValue_button_fields s
    rw [step_getValue, g1, g2, g4, g6, g7]
    refine ⟨ha, hb, he, hd, ?_⟩
    rcases hmode with ⟨hk, hd0, hr, hwrap, hF⟩ | ⟨hk, hpar, hF⟩
    · exact Or.inl ⟨hk, hd0, by omega, hwrap.imp id (fun hw => by omega), by omega⟩
    · exact Or.inr ⟨hk, by omega, by omega⟩
  | get_button =>
    have h0 : buttonChecks bld s [Op.get_button] = 0 := rfl
    rw [h0] at hmode
    obtain ⟨g1, g2, -, g4, -, g6, g7⟩ := get_button_snd s
    rw [step_get_button, g1, g2, g4, g6, g7, hb]
    refine ⟨ha, rfl, he, hd, ?_⟩
    rcases hmode with ⟨hk, hd0, hr, hwrap, hF⟩ | ⟨hk, hpar, hF⟩
    · exact Or.inl ⟨hk, hd0, by omega, hwrap.imp id (fun hw => by omega), by omega⟩
    · exact Or.inr ⟨hk, by omega, by omega⟩
  | setDoubleClickEnabled d => exact hp.elim
  | setAccelerationEnabled a => exact hp.elim

theorem release_event_step (bld : Build) (active : Bool) (B : ButtonType) (s : ClickEncoder)
    (op : Op) (r : Nat) (hp : pinTick active false op)
    (h : s.pinsActive = active ∧
      ((s.keyDownTicks ≠ 0 ∧ 1 ≤ buttonChecks bld s [op] + r ∧
          ((s.button = ButtonType.Held ∧ B = ButtonType.Released) ∨
           (s.button ≠ ButtonType.Held ∧ 1 < s.doubleClickTicks ∧ s.doubleClickTicks < 60 ∧
              B = ButtonType.DoubleClicked))) ∨
       (s.keyDownTicks = 0 ∧ s.doubleClickTicks = 0 ∧ s.button = B))) :
    (step bld s op).2.pinsActive = active ∧
    (((step bld s op).2.keyDownTicks ≠ 0 ∧ 1 ≤ r ∧
        (((step bld s op).2.button = ButtonType.Held ∧ B = ButtonType.Released) ∨
         ((step bld s op).2.button ≠ ButtonType.Held ∧ 1 < (step bld s op).2.doubleClickTicks ∧
            (step bld s op).2.doubleClickTicks < 60 ∧ B = ButtonType.DoubleClicked))) ∨
     ((step bld s op).2.keyDownTicks = 0 ∧ (step bld s op).2.doubleClickTicks = 0 ∧
        (step bld s op).2.button = B)) := by
  obtain ⟨ha, hmode⟩ := h
  cases op with
  | service p =>
    obtain ⟨hp1, hp2⟩ := hp
    rw [pinLevel_up, ← ha] at hp1 hp2
    rw [buttonChecks_service] at hmode
    rw [step_service, (service_config bld s p).2.1]
    by_cases hdue : buttonDue s p
    · rw [if_pos hdue] at hmode
      rcases hmode with ⟨hk, -, ⟨hb, hB⟩ | ⟨hb, hd1, hd2, hB⟩⟩ | ⟨hk, hd, hb⟩
      · obtain ⟨e1, e2, e3⟩ := service_due_up_held bld s p hdue hp1 hp2 hk hb
        rw [e1, e2, e3, hB]
        exact ⟨ha, Or.inr ⟨rfl, rfl, rfl⟩⟩
      · obtain ⟨e1, e2, e3⟩ := service_due_up_double bld s p hdue hp1 hp2 hk hb hd1 hd2
        rw [e1, e2, e3, hB]
        exact ⟨ha, Or.inr ⟨rfl, rfl, rfl⟩⟩
      · obtain ⟨e1, e2, e3⟩ := service_due_up_idle bld s p hdue hp1 hp2 hk (by omega)
          (by omega)
        rw [e1, e2, e3, if_neg (by omega)]
        exact ⟨ha, Or.inr ⟨rfl, by omega, hb⟩⟩
    · rw [if_neg hdue] at hmode
      obtain ⟨e1, e2, -, e4⟩ := service_not_due bld s p hdue
      rw [e1, e2, e4]
      refine ⟨ha, ?_⟩
      rcases hmode with ⟨hk, hr, hcase⟩ | hq
      · exact Or.inl ⟨hk, by omega, hcase⟩
      · exact Or.inr hq
  | getValue => exact hp.elim
  | get_button => exact hp.elim
  | setDoubleClickEnabled d => exact hp.elim
  | setAccelerationEnabled a => exact hp.elim

theorem read_open (bld : Build) (s : ClickEncoder) (op : Op)
    (hb : s.button = ButtonType.Open) :
    ∀ b, (step bld s op).1 = Out.button b → b = ButtonType.Open := by
  intro b hout
  cases op with
  | service p => simp [step] at hout
  | getValue => simp [step] at hout
  | get_button =>
    have : (get_button s).1 = b := by simpa [step] using hout
    rw [← this]
    exact hb
  | setDoubleClickEnabled d => simp [step] at hout
  | setAccelerationEnabled a => simp [step] at hout

theorem phase_config (bld : Build) (active down : Bool) :
    ∀ (ops : List Op) (s : ClickEncoder), (∀ op ∈ ops, pinPhase active down op) →
      (run bld s ops).doubleClickEnabled = s.doubleClickEnabled ∧
      (run bld s ops).pinBTN = s.pinBTN ∧ (run bld s ops).pinsActive = s.pinsActive := by
  intro ops
  induction ops with
  | nil => intro s _; exact ⟨rfl, rfl, rfl⟩
  | cons op ops ih =>
    intro s hP
    obtain ⟨i1, i2, i3⟩ := ih (step bld s op).2 (fun o ho => hP o (List.mem_cons_of_mem op ho))
    have hp := hP op (List.mem_cons_self op ops)
    have hrun : run bld s (op :: ops) = run bld (step bld s op).2 ops := rfl
    rw [hrun, i1, i2, i3]
    cases op with
    | service p =>
      rw [step_service]
      exact ⟨(service_config bld s p).2.2, (service_config bld s p).1,
        (service_config bld s p).2.1⟩
    | getValue => exact ⟨rfl, rfl, rfl⟩
    | get_button =>
      obtain ⟨-, -, -, g4, g5, g6, -⟩ := get_button_snd s
      rw [step_get_button]
      exact ⟨g6, g5, g4⟩
    | setDoubleClickEnabled d => exact hp.elim
    | setAccelerationEnabled a => exact hp.elim

theorem pinTick_pinPhase (active down : Bool) (op : Op) (h : pinTick active down op) :
    pinPhase active down op := by
  cases op with
  | service p => exact h
  | getValue => exact h.elim
  | get_button => exact h.elim
  | setDoubleClickEnabled d => exact h.elim
  | setAccelerationEnabled a => exact h.elim

theorem press_short (bld : Build) (active : Bool) (ops : List Op) (s : ClickEncoder)
    (hops : ∀ op ∈ ops, pinPhase active true op) (ha : s.pinsActive = active)
    (hb : s.button = ButtonType.Open) (hd : s.doubleClickTicks < 256)
    (hpar : s.doubleClickTicks % 2 = 0 ∨ 2 * buttonChecks bld s ops < s.doubleClickTicks)
    (hk : s.keyDownTicks + buttonChecks bld s ops ≤ 120) :
    (run bld s ops).pinsActive = active ∧ (run bld s ops).button = ButtonType.Open ∧
    (run bld s ops).keyDownTicks = s.keyDownTicks + buttonChecks bld s ops ∧
    (run bld s ops).doubleClickTicks = s.doubleClickTicks - 2 * buttonChecks bld s ops ∧
    (∀ m, (run bld s (ops.take m)).button = ButtonType.Open) ∧
    (∀ b, Out.button b ∈ outputs bld s ops → b = ButtonType.Open) := by
  have hI := run_budget bld (pinPhase active true)
    (fun t r => t.pinsActive = active ∧ t.button = ButtonType.Open ∧
      t.doubleClickTicks < 256 ∧ (t.doubleClickTicks % 2 = 0 ∨ 2 * r < t.doubleClickTicks) ∧
      t.keyDownTicks + r = s.keyDownTicks + buttonChecks bld s ops ∧
      s.keyDownTicks + buttonChecks bld s ops ≤ 120 ∧
      t.doubleClickTicks - 2 * r = s.doubleClickTicks - 2 * buttonChecks bld s ops)
    (fun t op r hp h => press_short_step bld active _ _ t op r hp h)
    ops s hops ⟨ha, hb, hd, hpar, rfl, hk, rfl⟩
  have hO := outputs_budget bld (pinPhase active true)
    (fun t r => t.pinsActive = active ∧ t.button = ButtonType.Open ∧
      t.doubleClickTicks < 256 ∧ (t.doubleClickTicks % 2 = 0 ∨ 2 * r < t.doubleClickTicks) ∧
      t.keyDownTicks + r = s.keyDownTicks + buttonChecks bld s ops ∧
      s.keyDownTicks + buttonChecks bld s ops ≤ 120 ∧
      t.doubleClickTicks - 2 * r = s.doubleClickTicks - 2 * buttonChecks bld s ops)
    (fun out => ∀ b, out = Out.button b → b = ButtonType.Open)
    (fun t op r hp h => press_short_step bld active _ _ t op r hp h)
    (fun t op r _ h => read_open bld t op h.2.1)
    ops s hops ⟨ha, hb, hd, hpar, rfl, hk, rfl⟩
  obtain ⟨⟨f1, f2, -, -, f5, -, f7⟩, hpre⟩ := hI
  refine ⟨f1, f2, by omega, by omega, fun m => ?_, fun b hb' => hO _ hb' b rfl⟩
  obtain ⟨r, hr⟩ := hpre m
  exact hr.2.1

theorem up_count_aux (bld : Build) (active e : Bool) (F : Nat) (ops : List Op)
    (s : ClickEncoder) (hops : ∀ op ∈ ops, pinPhase active false op)
    (h : s.pinsActive = active ∧ s.button = ButtonType.Open ∧ s.doubleClickEnabled = e ∧
      s.doubleClickTicks < 256 ∧
      ((s.keyDownTicks ≠ 0 ∧ s.doubleClickTicks = 0 ∧ 1 ≤ buttonChecks bld s ops ∧
          (e = true ∨ 2 * buttonChecks bld s ops < 257) ∧
          (if e then 58 else 255) + 2 - 2 * buttonChecks bld s ops = F) ∨
       (s.keyDownTicks = 0 ∧
          (s.doubleClickTicks % 2 = 0 ∨ 2 * buttonChecks bld s ops < s.doubleClickTicks) ∧
          s.doubleClickTicks - 2 * buttonChecks bld s ops = F))) :
    (run bld s ops).pinsActive = active ∧ (run bld s ops).button = ButtonType.Open ∧
    (run bld s ops).keyDownTicks = 0 ∧ (run bld s ops).doubleClickTicks = F ∧
    (∀ m, (run bld s (ops.take m)).button = ButtonType.Open) ∧
    (∀ b, Out.button b ∈ outputs bld s ops → b = ButtonType.Open) := by
  have hI := run_budget bld (pinPhase active false)
    (fun t r => t.pinsActive = active ∧ t.button = ButtonType.Open ∧
      t.doubleClickEnabled = e ∧ t.doubleClickTicks < 256 ∧
      ((t.keyDownTicks ≠ 0 ∧ t.doubleClickTicks = 0 ∧ 1 ≤ r ∧
          (e = true ∨ 2 * r < 257) ∧ (if e then 58 else 255) + 2 - 2 * r = F) ∨
       (t.keyDownTicks = 0 ∧ (t.doubleClickTicks % 2 = 0 ∨ 2 * r < t.doubleClickTicks) ∧
          t.doubleClickTicks - 2 * r = F)))
    (fun t op r hp h => up_count_step bld active e F t op r hp h)
    ops s hops h
  have hO := outputs_budget bld (pinPhase active false)
    (fun t r => t.pinsActive = active ∧ t.button = ButtonType.Open ∧
      t.doubleClickEnabled = e ∧ t.doubleClickTicks < 256 ∧
      ((t.keyDownTicks ≠ 0 ∧ t.doubleClickTicks = 0 ∧ 1 ≤ r ∧
          (e = true ∨ 2 * r < 257) ∧ (if e then 58 else 255) + 2 - 2 * r = F) ∨
       (t.keyDownTicks = 0 ∧ (t.doubleClickTicks % 2 = 0 ∨ 2 * r < t.doubleClickTicks) ∧
          t.doubleClickTicks - 2 * r = F)))
    (fun out => ∀ b, out = Out.button b → b = ButtonType.Open)
    (fun t op r hp h => up_count_step bld active e F t op r hp h)
    (fun t op r _ h => read_open bld t op h.2.1)
    ops s hops h
  obtain ⟨⟨f1, f2, -, -, fmode⟩, hpre⟩ := hI
  refine ⟨f1, f2, ?_, ?_, fun m => ?_, fun b hb' => hO _ hb' b rfl⟩
  · rcases fmode with ⟨-, -, hr, -⟩ | ⟨hk, -⟩
    · omega
    · exact hk
  · rcases fmode with ⟨-, -, hr, -⟩ | ⟨-, -, hF⟩
    · omega
    · simpa using hF
  · obtain ⟨r, hr⟩ := hpre m
    exact hr.2.1

theorem up_count_first (bld : Build) (active : Bool) (ops : List Op) (s : ClickEncoder)
    (hops : ∀ op ∈ ops, pinPhase active false op) (ha : s.pinsActive = active)
    (hb : s.button = ButtonType.Open) (hk : s.keyDownTicks ≠ 0)
    (hd : s.doubleClickTicks = 0) (hn : 1 ≤ buttonChecks bld s ops)
    (hw : s.doubleClickEnabled = true ∨ 2 * buttonChecks bld s ops < 257) :
    (run bld s ops).pinsActive = active ∧ (run bld s ops).button = ButtonType.Open ∧
    (run bld s ops).keyDownTicks = 0 ∧
    (run bld s ops).doubleClickTicks =
      (if s.doubleClickEnabled then 58 else 255) + 2 - 2 * buttonChecks bld s ops ∧
    (∀ m, (run bld s (ops.take m)).button = ButtonType.Open) ∧
    (∀ b, Out.button b ∈ outputs bld s ops → b = ButtonType.Open) :=
  up_count_aux bld active s.doubleClickEnabled _ ops s hops
    ⟨ha, hb, rfl, by omega, Or.inl ⟨hk, hd, hn, hw, rfl⟩⟩

theorem release_event (bld : Build) (active : Bool) (B : ButtonType) (ops : List Op)
    (s : ClickEncoder) (hops : ∀ op ∈ ops, pinTick active false op)
    (ha : s.pinsActive = active) (hk : s.keyDownTicks ≠ 0)
    (hn : 1 ≤ buttonChecks bld s ops)
    (hcase : (s.button = ButtonType.Held ∧ B = ButtonType.Released) ∨
      (s.button ≠ ButtonType.Held ∧ 1 < s.doubleClickTicks ∧ s.doubleClickTicks < 60 ∧
        B = ButtonType.DoubleClicked)) :
    (run bld s ops).pinsActive = active ∧ (run bld s ops).keyDownTicks = 0 ∧
    (run bld s ops).doubleClickTicks = 0 ∧ (run bld s ops).button = B := by
  have hI := run_budget bld (pinTick active false)
    (fun t r => t.pinsActive = active ∧
      ((t.keyDownTicks ≠ 0 ∧ 1 ≤ r ∧
          ((t.button = ButtonType.Held ∧ B = ButtonType.Released) ∨
           (t.button ≠ ButtonType.Held ∧ 1 < t.doubleClickTicks ∧ t.doubleClickTicks < 60 ∧
              B = ButtonType.DoubleClicked))) ∨
       (t.keyDownTicks = 0 ∧ t.doubleClickTicks = 0 ∧ t.button = B)))
    (fun t op r hp h => release_event_step bld active B t op r hp h)
    ops s hops ⟨ha, Or.inl ⟨hk, hn, hcase⟩⟩
  obtain ⟨⟨f1, fmode⟩, -⟩ := hI
  rcases fmode with ⟨-, hr, -⟩ | ⟨g1, g2, g3⟩
  · omega
  · exact ⟨f1, g1, g2, g3⟩

/-! ### Ticks one millisecond apart -/

theorem buttonTicks_phase (active down : Bool) (n : Nat) :
    ∀ t0 : Nat, ∀ op ∈ buttonTicks (pinLevel active down) t0 n, pinTick active down op := by
  induction n with
  | zero => intro t0 op h; simp [buttonTicks] at h
  | succ n ih =>
    intro t0 op h
    simp only [buttonTicks, List.mem_cons] at h
    rcases h with h | h
    · rw [h]
      exact ⟨rfl, rfl⟩
    · exact ih _ op h

theorem buttonTicks_append (level : Bool) (m n : Nat) :
    ∀ t0 : Nat, buttonTicks level t0 (m + n) =
      buttonTicks level t0 m ++ buttonTicks level (t0 + m) n := by
  induction m with
  | zero => intro t0; simp [buttonTicks]
  | succ m ih =>
    intro t0
    have h1 : m + 1 + n = (m + n) + 1 := by omega
    rw [h1]
    simp only [buttonTicks, List.cons_append]
    rw [ih (t0 + 1)]
    have h2 : t0 + 1 + m = t0 + (m + 1) := by omega
    rw [h2]

theorem buttonTick_due (level : Bool) (s : ClickEncoder) (t0 j : Nat)
    (hw : s.pinBTN > 0) (hc : s.last_buttonCheck + j = t0) (ht : t0 + 1 < 4294967296) :
    buttonDue s (tickPins level (t0 + 1)) ↔ 9 ≤ j := by
  unfold buttonDue ENC_buttonINTERVAL toUInt32 tickPins
  dsimp only
  constructor
  · intro h
    omega
  · intro h
    exact ⟨hw, by omega⟩

theorem buttonTicks_checks (bld : Build) (level : Bool) (n : Nat) :
    ∀ (s : ClickEncoder) (t0 j : Nat), s.pinBTN > 0 → s.last_buttonCheck + j = t0 →
      j < 10 → t0 + n < 4294967296 →
      buttonChecks bld s (buttonTicks level t0 n) = (j + n) / 10 ∧
      (run bld s (buttonTicks level t0 n)).last_buttonCheck + (j + n) % 10 = t0 + n ∧
      (run bld s (buttonTicks level t0 n)).pinBTN > 0 := by
  induction n with
  | zero =>
    intro s t0 j hw hc hj _
    refine ⟨?_, ?_, hw⟩
    · show 0 = _
      omega
    · show s.last_buttonCheck + _ = _
      omega
  | succ n ih =>
    intro s t0 j hw hc hj ht
    have hdue := buttonTick_due level s t0 j hw hc (by omega)
    have hcfg := service_config bld s (tickPins level (t0 + 1))
    simp only [buttonTicks, buttonTick, buttonChecks]
    have hrun : ∀ (p : Pins) (ops : List Op),
        run bld s (Op.service p :: ops) = run bld (service bld s p) ops := fun _ _ => rfl
    rw [hrun]
    by_cases h9 : 9 ≤ j
    · have hd := hdue.mpr h9
      have hchk := service_due_check bld s (tickPins level (t0 + 1)) hd
      have hc' : (service bld s (tickPins level (t0 + 1))).last_buttonCheck + 0 = t0 + 1 := by
        rw [hchk]
        unfold toUInt32 tickPins
        dsimp only
        omega
      obtain ⟨i1, i2, i3⟩ := ih _ (t0 + 1) 0 (by rw [hcfg.1]; exact hw) hc' (by omega)
        (by omega)
      rw [if_pos hd, i1]
      refine ⟨by omega, by omega, i3⟩
    · have hd : ¬ buttonDue s (tickPins level (t0 + 1)) := fun h => h9 (hdue.mp h)
      obtain ⟨-, -, e3, -⟩ := service_not_due bld s _ hd
      have hc' : (service bld s (tickPins level (t0 + 1))).last_buttonCheck + (j + 1) =
          t0 + 1 := by
        rw [e3]
        omega
      obtain ⟨i1, i2, i3⟩ := ih _ (t0 + 1) (j + 1) (by rw [hcfg.1]; exact hw) hc' (by omega)
        (by omega)
      rw [if_neg hd, i1]
      refine ⟨by omega, by omega, i3⟩

theorem buttonTicks_pinPhase (active down : Bool) (t0 n : Nat) :
    ∀ op ∈ buttonTicks (pinLevel active down) t0 n, pinPhase active down op :=
  fun op h => pinTick_pinPhase active down op (buttonTicks_phase active down n t0 op h)

theorem get_button_fst (s : ClickEncoder) : (get_button s).1 = s.button := rfl

/-! ### Any service tick, whatever the reads of the button pin -/

theorem buttonDown_any (t : ClickEncoder) :
    ((buttonDown t).button = t.button ∨ (buttonDown t).button = ButtonType.Held) ∧
    (buttonDown t).doubleClickTicks = t.doubleClickTicks ∧
    (buttonDown t).doubleClickEnabled = t.doubleClickEnabled := by
  unfold buttonDown
  dsimp only
  split_ifs
  · exact ⟨Or.inr rfl, rfl, rfl⟩
  · exact ⟨Or.inl rfl, rfl, rfl⟩

theorem buttonUp_any (t : ClickEncoder) :
    ((buttonUp t).button = t.button ∨ (buttonUp t).button = ButtonType.Released ∨
      (buttonUp t).button = ButtonType.DoubleClicked) ∧
    ((buttonUp t).doubleClickTicks = t.doubleClickTicks ∨ (buttonUp t).doubleClickTicks = 0 ∨
      (t.doubleClickEnabled = true ∧ (buttonUp t).doubleClickTicks = 60) ∨
      (t.doubleClickEnabled = false ∧ (buttonUp t).doubleClickTicks = 1)) ∧
    (buttonUp t).doubleClickEnabled = t.doubleClickEnabled := by
  unfold buttonUp
  dsimp only
  split_ifs <;> simp_all [ENC_DOUBLECLICKTIME, ENC_buttonINTERVAL, ENC_SINGLECLICKONLY]

theorem buttonWindow_any (t : ClickEncoder) :
    ((buttonWindow t).button = t.button ∨ (buttonWindow t).button = ButtonType.Open) ∧
    (buttonWindow t).doubleClickEnabled = t.doubleClickEnabled := by
  unfold buttonWindow
  dsimp only
  split_ifs
  · exact ⟨Or.inr rfl, rfl⟩
  · exact ⟨Or.inl rfl, rfl⟩
  · exact ⟨Or.inl rfl, rfl⟩

theorem windowEntry_any (t : ClickEncoder) (p : Pins) :
    ((windowEntry t p).button = t.button ∨ (windowEntry t p).button = ButtonType.Held ∨
      (windowEntry t p).button = ButtonType.Released ∨
      (windowEntry t p).button = ButtonType.DoubleClicked) ∧
    ((windowEntry t p).doubleClickTicks = t.doubleClickTicks ∨
      (windowEntry t p).doubleClickTicks = 0 ∨
      (t.doubleClickEnabled = true ∧ (windowEntry t p).doubleClickTicks = 60) ∨
      (t.doubleClickEnabled = false ∧ (windowEntry t p).doubleClickTicks = 1)) ∧
    (windowEntry t p).doubleClickEnabled = t.doubleClickEnabled := by
  have hd := buttonDown_any { t with last_buttonCheck := toUInt32 p.now }
  have hu1 := buttonUp_any (buttonDown { t with last_buttonCheck := toUInt32 p.now })
  have hu2 := buttonUp_any { t with last_buttonCheck := toUInt32 p.now }
  unfold windowEntry
  dsimp only at hd hu1 hu2 ⊢
  by_cases c1 : (p.btnDown == t.pinsActive) = true
  · rw [if_pos c1]
    obtain ⟨d1, d2, d3⟩ := hd
    split_ifs
    · obtain ⟨u1, u2, u3⟩ := hu1
      rw [d2, d3] at u2
      rw [d3] at u3
      refine ⟨?_, u2, u3⟩
      rcases u1 with u | u | u
      · rw [u]
        rcases d1 with d | d
        · exact Or.inl d
        · exact Or.inr (Or.inl d)
      · exact Or.inr (Or.inr (Or.inl u))
      · exact Or.inr (Or.inr (Or.inr u))
    · refine ⟨?_, Or.inl d2, d3⟩
      rcases d1 with d | d
      · exact Or.inl d
      · exact Or.inr (Or.inl d)
  · rw [if_neg c1]
    split_ifs
    · obtain ⟨u1, u2, u3⟩ := hu2
      refine ⟨?_, u2, u3⟩
      rcases u1 with u | u | u
      · exact Or.inl u
      · exact Or.inr (Or.inr (Or.inl u))
      · exact Or.inr (Or.inr (Or.inr u))
    · exact ⟨Or.inl rfl, Or.inl rfl, rfl⟩

/-- The four values of `ButtonType` that the code stores. -/
theorem service_button_range (bld : Build) (s : ClickEncoder) (p : Pins)
    (h : s.button = ButtonType.Open ∨ s.button = ButtonType.Held ∨
      s.button = ButtonType.Released ∨ s.button = ButtonType.DoubleClicked) :
    (service bld s p).button = ButtonType.Open ∨ (service bld s p).button = ButtonType.Held ∨
    (service bld s p).button = ButtonType.Released ∨
    (service bld s p).button = ButtonType.DoubleClicked := by
  obtain ⟨x, y, z, hs⟩ := service_update bld s p
  rw [hs, serviceButton_eq]
  by_cases hdue : buttonDue { s with delta := x, last := y, acceleration := z } p
  · rw [if_pos hdue]
    obtain ⟨w1, -⟩ := buttonWindow_any
      (windowEntry { s with delta := x, last := y, acceleration := z } p)
    obtain ⟨v1, -, -⟩ := windowEntry_any { s with delta := x, last := y, acceleration := z } p
    rcases w1 with w | w
    · rw [w]
      rcases v1 with v | v | v | v
      · rw [v]; exact h
      · exact Or.inr (Or.inl v)
      · exact Or.inr (Or.inr (Or.inl v))
      · exact Or.inr (Or.inr (Or.inr v))
    · exact Or.inl w
  · rw [if_neg hdue]
    exact h

theorem run_invariant (bld : Build) (P : Op → Prop) (I : ClickEncoder → Prop)
    (R : Out → Prop)
    (hstep : ∀ (s : ClickEncoder) (op : Op), P op → I s →
      I (step bld s op).2 ∧ R (step bld s op).1) :
    ∀ (ops : List Op) (s : ClickEncoder), (∀ op ∈ ops, P op) → I s →
      I (run bld s ops) ∧ ∀ out ∈ outputs bld s ops, R out := by
  intro ops
  induction ops with
  | nil =>
    intro s _ h
    exact ⟨h, fun out hout => by simp [outputs] at hout⟩
  | cons op ops ih =>
    intro s hP h
    obtain ⟨h1, h2⟩ := hstep s op (hP op (List.mem_cons_self op ops)) h
    obtain ⟨h3, h4⟩ := ih (step bld s op).2 (fun o ho => hP o (List.mem_cons_of_mem op ho)) h1
    refine ⟨h3, fun out hout => ?_⟩
    rcases List.mem_cons.mp hout with e | e
    · rw [e]; exact h2
    · exact h4 out e

theorem setAccelerationEnabled_button_fields (s : ClickEncoder) (a : Bool) :
    (setAccelerationEnabled s a).keyDownTicks = s.keyDownTicks ∧
    (setAccelerationEnabled s a).doubleClickTicks = s.doubleClickTicks ∧
    (setAccelerationEnabled s a).last_buttonCheck = s.last_buttonCheck ∧
    (setAccelerationEnabled s a).pinsActive = s.pinsActive ∧
    (setAccelerationEnabled s a).pinBTN = s.pinBTN ∧
    (setAccelerationEnabled s a).doubleClickEnabled = s.doubleClickEnabled ∧
    (setAccelerationEnabled s a).button = s.button := by
  unfold setAccelerationEnabled
  dsimp only
  split_ifs <;> exact ⟨rfl, rfl, rfl, rfl, rfl, rfl, rfl⟩

theorem step_button_range (bld : Build) (s : ClickEncoder) (op : Op)
    (h : s.button = ButtonType.Open ∨ s.button = ButtonType.Held ∨
      s.button = ButtonType.Released ∨ s.button = ButtonType.DoubleClicked) :
    ((step bld s op).2.button = ButtonType.Open ∨ (step bld s op).2.button = ButtonType.Held ∨
      (step bld s op).2.button = ButtonType.Released ∨
      (step bld s op).2.button = ButtonType.DoubleClicked) ∧
    ∀ b, (step bld s op).1 = Out.button b →
      b = ButtonType.Open ∨ b = ButtonType.Held ∨ b = ButtonType.Released ∨
      b = ButtonType.DoubleClicked := by
  cases op with
  | service p =>
    refine ⟨service_button_range bld s p h, fun b hb => ?_⟩
    cases hb
  | getValue =>
    refine ⟨h, fun b hb => ?_⟩
    cases hb
  | get_button =>
    refine ⟨?_, fun b hb => ?_⟩
    · rw [step_get_button, (get_button_snd s).2.2.2.2.2.2]
      split_ifs
      · exact Or.inr (Or.inl rfl)
      · exact Or.inl rfl
    · have hb' : Out.button (get_button s).1 = Out.button b := hb
      injection hb' with hb'
      rw [← hb', get_button_fst]
      exact h
  | setDoubleClickEnabled d =>
    refine ⟨h, fun b hb => ?_⟩
    cases hb
  | setAccelerationEnabled a =>
    refine ⟨?_, fun b hb => ?_⟩
    · show (setAccelerationEnabled s a).button = _ ∨ (setAccelerationEnabled s a).button = _ ∨
        (setAccelerationEnabled s a).button = _ ∨ (setAccelerationEnabled s a).button = _
      rw [(setAccelerationEnabled_button_fields s a).2.2.2.2.2.2]
      exact h
    · cases hb

theorem step_unwired (bld : Build) (s : ClickEncoder) (op : Op)
    (h : s.pinBTN = 0 ∧ s.button = ButtonType.Open) :
    ((step bld s op).2.pinBTN = 0 ∧ (step bld s op).2.button = ButtonType.Open) ∧
    ∀ b, (step bld s op).1 = Out.button b → b = ButtonType.Open := by
  obtain ⟨hw, hb⟩ := h
  cases op with
  | service p =>
    have hdue : ¬ buttonDue s p := by
      intro hd
      have := hd.1
      omega
    refine ⟨⟨?_, ?_⟩, fun b hb => ?_⟩
    · rw [step_service, (service_config bld s p).1]
      exact hw
    · rw [step_service, (service_not_due bld s p hdue).2.2.2]
      exact hb
    · cases hb
  | getValue =>
    refine ⟨⟨hw, hb⟩, fun b hb => ?_⟩
    cases hb
  | get_button =>
    refine ⟨⟨?_, ?_⟩, fun b hb' => ?_⟩
    · rw [step_get_button, (get_button_snd s).2.2.2.2.1]
      exact hw
    · rw [step_get_button, (get_button_snd s).2.2.2.2.2.2]
      split_ifs with hh
      · rw [hb] at hh
        cases hh
      · rfl
    · have hb2 : Out.button (get_button s).1 = Out.button b := hb'
      injection hb2 with hb2
      rw [← hb2, get_button_fst]
      exact hb
  | setDoubleClickEnabled d =>
    refine ⟨⟨hw, hb⟩, fun b hb => ?_⟩
    cases hb
  | setAccelerationEnabled a =>
    refine ⟨⟨?_, ?_⟩, fun b hb => ?_⟩
    · show (setAccelerationEnabled s a).pinBTN = 0
      rw [(setAccelerationEnabled_button_fields s a).2.2.2.2.1]
      exact hw
    · show (setAccelerationEnabled s a).button = _
      rw [(setAccelerationEnabled_button_fields s a).2.2.2.2.2.2]
      exact hb
    · cases hb

/-! ### The button counters -/

theorem currCode_codePins (s : ClickEncoder) (c : Int) :
    currCode s (codePins s.pinsActive c) = c % 4 := by
  have h : c % 4 = 0 ∨ c % 4 = 1 ∨ c % 4 = 2 ∨ c % 4 = 3 := by omega
  unfold currCode codePins
  dsimp only
  rcases h with h | h | h | h <;> rw [h] <;> cases s.pinsActive <;> decide

theorem nextCode_range (up : Bool) (c : Int) :
    0 ≤ nextCode up c ∧ nextCode up c ≤ 3 ∧ nextCode up c % 4 = nextCode up c := by
  unfold nextCode
  cases up
  · simp only [Bool.false_eq_true, if_false]
    omega
  · simp only [if_true]
    omega

theorem accelGrow_eq (a : Nat) : accelGrow a = if a ≤ 3047 then a + 25 else a := rfl

theorem accelGrow_le (a : Nat) (h : a ≤ 3072) : accelGrow a ≤ 3072 := by
  rw [accelGrow_eq]
  split_ifs <;> omega

theorem burstAccel_succ (g a k : Nat) :
    burstAccel g a (k + 1) = burstAccel g (accelGrow (a - 2 * g)) k := rfl

theorem service_motion_frame (bld : Build) (s : ClickEncoder) (p : Pins) :
    (service bld s p).accelerationEnabled = s.accelerationEnabled ∧
    (service bld s p).steps = s.steps := by
  obtain ⟨x, y, z, h⟩ := service_update bld s p
  have hs := serviceButton_frame { s with delta := x, last := y, acceleration := z } p
  rw [h]
  exact ⟨hs.2.2.2.1, hs.2.2.2.2.1⟩

theorem burst_step_tick (bld : Build) (hb : bld.decoder = Decoder.ENC_NORMAL) (up : Bool)
    (s : ClickEncoder) (h0 : 0 ≤ s.last) (h3 : s.last ≤ 3)
    (he : s.accelerationEnabled = true) (ha : s.acceleration ≤ 3072) :
    (service bld s (codePins s.pinsActive (nextCode up s.last))).last = nextCode up s.last ∧
    (service bld s (codePins s.pinsActive (nextCode up s.last))).delta =
      toInt16 (s.delta + (if up then 1 else -1)) ∧
    (service bld s (codePins s.pinsActive (nextCode up s.last))).acceleration =
      accelGrow (s.acceleration - 2) ∧
    (service bld s (codePins s.pinsActive (nextCode up s.last))).pinsActive = s.pinsActive ∧
    (service bld s (codePins s.pinsActive (nextCode up s.last))).accelerationEnabled = true ∧
    (service bld s (codePins s.pinsActive (nextCode up s.last))).steps = s.steps := by
  obtain ⟨n0, n3, n4⟩ := nextCode_range up s.last
  have hc : currCode s (codePins s.pinsActive (nextCode up s.last)) = nextCode up s.last := by
    rw [currCode_codePins, n4]
  obtain ⟨hd, hl, hacc, hp⟩ :=
    service_normal bld s (codePins s.pinsActive (nextCode up s.last)) hb
  obtain ⟨f1, f2⟩ := service_motion_frame bld s (codePins s.pinsActive (nextCode up s.last))
  have hall := diff_bits s.last (mem_codes h0 h3) (nextCode up s.last) (mem_codes n0 n3)
  rw [hc] at hd hl hacc
  have hbits : bitAnd (toInt8 (s.last - nextCode up s.last)) 1 ≠ 0 ∧
      bitAnd (toInt8 (s.last - nextCode up s.last)) 2 - 1 = (if up then 1 else -1) := by
    cases up
    · exact hall.2.1 rfl
    · exact hall.1 rfl
  obtain ⟨b1, b2⟩ := hbits
  have hdec : (serviceDecay s).acceleration = s.acceleration - 2 := by
    rw [serviceDecay_acceleration s (by omega), if_pos he]
  have hen : (serviceDecay s).accelerationEnabled = true := by
    rw [(serviceDecay_frame s).2.2.1]
    exact he
  rw [if_pos b1] at hd hl
  rw [decide_eq_true b1, serviceGrow_acceleration _ _ (by rw [hdec]; omega), hen, hdec] at hacc
  refine ⟨?_, ?_, ?_, hp, f1.trans he, f2⟩
  · rw [hl]
    unfold toInt16
    omega
  · rw [hd, b2]
  · rw [hacc, accelGrow_eq]
    rfl

theorem burst_idle_tick (bld : Build) (hb : bld.decoder = Decoder.ENC_NORMAL)
    (s : ClickEncoder) (h0 : 0 ≤ s.last) (h3 : s.last ≤ 3)
    (he : s.accelerationEnabled = true) (ha : s.acceleration ≤ 3072) :
    (service bld s (codePins s.pinsActive s.last)).last = s.last ∧
    (service bld s (codePins s.pinsActive s.last)).delta = s.delta ∧
    (service bld s (codePins s.pinsActive s.last)).acceleration = s.acceleration - 2 ∧
    (service bld s (codePins s.pinsActive s.last)).pinsActive = s.pinsActive ∧
    (service bld s (codePins s.pinsActive s.last)).accelerationEnabled = true ∧
    (service bld s (codePins s.pinsActive s.last)).steps = s.steps := by
  have hc : currCode s (codePins s.pinsActive s.last) = s.last := by
    rw [currCode_codePins]
    omega
  obtain ⟨i1, i2, i3⟩ := normal_step_idle bld s (codePins s.pinsActive s.last) hb h0 h3
    (Or.inl hc)
  obtain ⟨f1, f2⟩ := service_motion_frame bld s (codePins s.pinsActive s.last)
  obtain ⟨-, -, -, hp⟩ := service_normal bld s (codePins s.pinsActive s.last) hb
  refine ⟨i1, i2, ?_, hp, f1.trans he, f2⟩
  rw [i3, serviceDecay_acceleration s (by omega), if_pos he]

theorem run_idle_ticks (bld : Build) (hb : bld.decoder = Decoder.ENC_NORMAL) (active : Bool)
    (c : Int) (h0 : 0 ≤ c) (h3 : c ≤ 3) (n : Nat) :
    ∀ s : ClickEncoder, s.pinsActive = active → s.last = c →
      s.accelerationEnabled = true → s.acceleration ≤ 3072 →
      (run bld s (List.replicate n (Op.service (codePins active c)))).pinsActive = active ∧
      (run bld s (List.replicate n (Op.service (codePins active c)))).last = c ∧
      (run bld s (List.replicate n (Op.service (codePins active c)))).accelerationEnabled
        = true ∧
      (run bld s (List.replicate n (Op.service (codePins active c)))).acceleration
        = s.acceleration - 2 * n ∧
      (run bld s (List.replicate n (Op.service (codePins active c)))).delta = s.delta ∧
      (run bld s (List.replicate n (Op.service (codePins active c)))).steps = s.steps := by
  induction n with
  | zero =>
    intro s hp hl he _
    exact ⟨hp, hl, he, rfl, rfl, rfl⟩
  | succ n ih =>
    intro s hp hl he ha
    obtain ⟨i1, i2, i3, i4, i5, i6⟩ := burst_idle_tick bld hb s (by omega) (by omega) he ha
    rw [hp, hl] at i1 i2 i3 i4 i5 i6
    obtain ⟨j1, j2, j3, j4, j5, j6⟩ := ih (service bld s (codePins active c)) i4 i1 i5
      (by rw [i3]; omega)
    rw [List.replicate_succ]
    show (run bld (service bld s (codePins active c)) _).pinsActive = active ∧
      (run bld (service bld s (codePins active c)) _).last = c ∧
      (run bld (service bld s (codePins active c)) _).accelerationEnabled = true ∧
      (run bld (service bld s (codePins active c)) _).acceleration = _ ∧
      (run bld (service bld s (codePins active c)) _).delta = _ ∧
      (run bld (service bld s (codePins active c)) _).steps = _
    rw [j4, j5, j6, i3, i2, i6]
    exact ⟨j1, j2, j3, by omega, rfl, rfl⟩

theorem run_burstBlock (bld : Build) (hb : bld.decoder = Decoder.ENC_NORMAL) (active up : Bool)
    (g : Nat) (hg : 1 ≤ g) (c : Int) (h0 : 0 ≤ c) (h3 : c ≤ 3) (s : ClickEncoder)
    (hp : s.pinsActive = active) (hl : s.last = c) (he : s.accelerationEnabled = true)
    (ha : s.acceleration ≤ 3072) :
    (run bld s (burstBlock active up g c)).pinsActive = active ∧
    (run bld s (burstBlock active up g c)).last = nextCode up c ∧
    (run bld s (burstBlock active up g c)).accelerationEnabled = true ∧
    (run bld s (burstBlock active up g c)).acceleration = accelGrow (s.acceleration - 2 * g) ∧
    (run bld s (burstBlock active up g c)).delta = toInt16 (s.delta + (if up then 1 else -1)) ∧
    (run bld s (burstBlock active up g c)).steps = s.steps := by
  obtain ⟨j1, j2, j3, j4, j5, j6⟩ := run_idle_ticks bld hb active c h0 h3 (g - 1) s hp hl he ha
  obtain ⟨i1, i2, i3, i4, i5, i6⟩ := burst_step_tick bld hb up
    (run bld s (List.replicate (g - 1) (Op.service (codePins active c))))
    (by rw [j2]; exact h0) (by rw [j2]; exact h3) j3 (by rw [j4]; omega)
  rw [j1, j2] at i1 i2 i3 i4 i5 i6
  rw [j4] at i3
  rw [j5] at i2
  rw [j6] at i6
  have hsub : s.acceleration - 2 * (g - 1) - 2 = s.acceleration - 2 * g := by omega
  rw [hsub] at i3
  unfold burstBlock
  rw [run_append]
  exact ⟨i4, i1, i5, i3, i2, i6⟩

theorem toInt16_range (x : Int) : -32768 ≤ toInt16 x ∧ toInt16 x ≤ 32767 := by
  unfold toInt16
  omega

theorem toInt16_add (x y : Int) : toInt16 (toInt16 x + y) = toInt16 (x + y) := by
  unfold toInt16
  omega

theorem run_burstTail (bld : Build) (hb : bld.decoder = Decoder.ENC_NORMAL) (active up : Bool)
    (g : Nat) (hg : 1 ≤ g) (k : Nat) :
    ∀ (c : Int) (s : ClickEncoder), 0 ≤ c → c ≤ 3 → s.pinsActive = active → s.last = c →
      s.accelerationEnabled = true → s.acceleration ≤ 3072 →
      -32768 ≤ s.delta → s.delta ≤ 32767 →
      (run bld s (burstTail active up g c k)).accelerationEnabled = true ∧
      (run bld s (burstTail active up g c k)).acceleration = burstAccel g s.acceleration k ∧
      (run bld s (burstTail active up g c k)).delta =
        toInt16 (s.delta + (if up then 1 else -1) * k) ∧
      (run bld s (burstTail active up g c k)).steps = s.steps := by
  induction k with
  | zero =>
    intro c s _ _ _ _ he _ hd1 hd2
    refine ⟨he, rfl, ?_, rfl⟩
    show s.delta = _
    rw [toInt16_of_range (by simp only [Nat.cast_zero, mul_zero, add_zero]; exact hd1)
      (by simp only [Nat.cast_zero, mul_zero, add_zero]; exact hd2)]
    simp
  | succ k ih =>
    intro c s h0 h3 hp hl he ha hd1 hd2
    obtain ⟨b1, b2, b3, b4, b5, b6⟩ := run_burstBlock bld hb active up g hg c h0 h3 s hp hl he ha
    obtain ⟨n0, n3, -⟩ := nextCode_range up c
    obtain ⟨t1, t2, t3, t4⟩ := ih (nextCode up c) (run bld s (burstBlock active up g c))
      n0 n3 b1 b2 b3 (by rw [b4]; exact accelGrow_le _ (by omega))
      (by rw [b5]; exact (toInt16_range _).1) (by rw [b5]; exact (toInt16_range _).2)
    show (run bld s (burstBlock active up g c ++ burstTail active up g (nextCode up c) k)
        ).accelerationEnabled = true ∧
      (run bld s (burstBlock active up g c ++ burstTail active up g (nextCode up c) k)
        ).acceleration = _ ∧
      (run bld s (burstBlock active up g c ++ burstTail active up g (nextCode up c) k)
        ).delta = _ ∧
      (run bld s (burstBlock active up g c ++ burstTail active up g (nextCode up c) k)
        ).steps = _
    rw [run_append, t2, t3, t4, b4, b5, b6, burstAccel_succ, toInt16_add]
    refine ⟨t1, rfl, ?_, rfl⟩
    congr 1
    push_cast
    ring

theorem run_burst (bld : Build) (hb : bld.decoder = Decoder.ENC_NORMAL) (active up : Bool)
    (g : Nat) (hg : 1 ≤ g) (k : Nat) (s : ClickEncoder) (h0 : 0 ≤ s.last) (h3 : s.last ≤ 3)
    (hp : s.pinsActive = active) (he : s.accelerationEnabled = true)
    (ha : s.acceleration ≤ 3072) (hd : s.delta = 0) :
    (run bld s (burst active up g s.last (k + 1))).accelerationEnabled = true ∧
    (run bld s (burst active up g s.last (k + 1))).acceleration =
      burstAccel g (accelGrow (s.acceleration - 2)) k ∧
    (run bld s (burst active up g s.last (k + 1))).delta =
      toInt16 ((if up then 1 else -1) * (k + 1)) ∧
    (run bld s (burst active up g s.last (k + 1))).steps = s.steps := by
  obtain ⟨i1, i2, i3, i4, i5, i6⟩ := burst_step_tick bld hb up s h0 h3 he ha
  rw [hp] at i1 i2 i3 i4 i5 i6
  obtain ⟨n0, n3, -⟩ := nextCode_range up s.last
  obtain ⟨t1, t2, t3, t4⟩ := run_burstTail bld hb active up g hg k (nextCode up s.last)
    (service bld s (codePins active (nextCode up s.last))) n0 n3 i4 i1 i5
    (by rw [i3]; exact accelGrow_le _ (by omega))
    (by rw [i2]; exact (toInt16_range _).1) (by rw [i2]; exact (toInt16_range _).2)
  show (run bld (service bld s (codePins active (nextCode up s.last))) _).accelerationEnabled
      = true ∧
    (run bld (service bld s (codePins active (nextCode up s.last))) _).acceleration = _ ∧
    (run bld (service bld s (codePins active (nextCode up s.last))) _).delta = _ ∧
    (run bld (service bld s (codePins active (nextCode up s.last))) _).steps = _
  rw [t2, t3, t4, i2, i3, i6, toInt16_add, hd]
  refine ⟨t1, rfl, ?_, rfl⟩
  congr 1
  ring

theorem getValue_zero_delta (s : ClickEncoder) (hst : s.steps = 1) (hd : s.delta = 0) :
    (getValue s).1 = 0 := by
  have hval := getValueVal_eq s (by omega) (by omega)
  rw [hst] at hval
  simp only [show ¬ (1 : Nat) = 4 by decide, show ¬ (1 : Nat) = 2 by decide, if_false] at hval
  rw [getValue_fst, hval, hd]
  rfl

theorem getValue_unit_steps (s : ClickEncoder) (hst : s.steps = 1)
    (he : s.accelerationEnabled = true) (ha : s.acceleration ≤ 3072)
    (h1 : -32768 ≤ s.delta) (h2 : s.delta ≤ 32767) (hd : s.delta ≠ 0) :
    (getValue s).1.natAbs = 1 + s.acceleration / 256 ∧
    (0 < s.delta → 0 < (getValue s).1) ∧ (s.delta < 0 → (getValue s).1 < 0) := by
  obtain ⟨hacc, -, -⟩ := getValueAccel_eq s (by omega)
  have hval := getValueVal_eq s h1 h2
  rw [hst] at hval
  simp only [show ¬ (1 : Nat) = 4 by decide, show ¬ (1 : Nat) = 2 by decide, if_false] at hval
  rw [he, if_pos rfl, shiftRight_eight] at hacc
  have hq : s.acceleration / 256 ≤ 12 := by omega
  rw [getValue_fst, hval, hacc]
  rcases lt_or_gt_of_ne hd with hn | hn
  · rw [if_pos hn]
    have : toInt16 (0 - (1 + ((s.acceleration / 256 : Nat) : Int))) =
        -(1 + ((s.acceleration / 256 : Nat) : Int)) := by
      unfold toInt16; omega
    rw [this]
    refine ⟨by omega, fun h => by omega, fun _ => by omega⟩
  · rw [if_neg (by omega), if_pos hn]
    have : toInt16 (0 + (1 + ((s.acceleration / 256 : Nat) : Int))) =
        1 + ((s.acceleration / 256 : Nat) : Int) := by
      unfold toInt16; omega
    rw [this]
    refine ⟨by omega, fun _ => by omega, fun h => by omega⟩

theorem burstAccel_le (g : Nat) (k : Nat) : ∀ a : Nat, a ≤ 3072 → burstAccel g a k ≤ 3072 := by
  induction k with
  | zero => intro a h; exact h
  | succ k ih =>
    intro a h
    rw [burstAccel_succ]
    exact ih _ (accelGrow_le _ (by omega))

theorem new_motion_fields (A B buttonPin stepsPerNotch : Nat) (active readA readB : Bool) (st : Statics) :
    0 ≤ (new A B buttonPin stepsPerNotch active readA readB st).last ∧
    (new A B buttonPin stepsPerNotch active readA readB st).last ≤ 3 ∧
    (new A B buttonPin stepsPerNotch active readA readB st).pinsActive = active ∧
    (new A B buttonPin stepsPerNotch active readA readB st).accelerationEnabled = true ∧
    (new A B buttonPin stepsPerNotch active readA readB st).acceleration = 0 ∧
    (new A B buttonPin stepsPerNotch active readA readB st).delta = 0 ∧
    (new A B buttonPin stepsPerNotch active readA readB st).steps = stepsPerNotch % 256 := by
  refine ⟨?_, ?_, rfl, rfl, rfl, rfl, rfl⟩
  · show 0 ≤ (if readB == active then toInt16 (bitXor (if readA == active then 3 else 0) 1)
      else (if readA == active then 3 else 0))
    cases readA <;> cases readB <;> cases active <;> decide
  · show (if readB == active then toInt16 (bitXor (if readA == active then 3 else 0) 1)
      else (if readA == active then 3 else 0)) ≤ 3
    cases readA <;> cases readB <;> cases active <;> decide

theorem toInt16_burst_ne_zero (up : Bool) (k : Nat) (hk : k + 1 ≤ 65535) :
    toInt16 ((if up then (1 : Int) else -1) * ((k : Int) + 1)) ≠ 0 := by
  unfold toInt16
  split_ifs <;> omega

theorem toInt16_burst_pos (k : Nat) (hk : k + 1 ≤ 32767) :
    0 < toInt16 (1 * ((k : Int) + 1)) := by
  unfold toInt16
  omega

theorem burst_value (bld : Build) (hb : bld.decoder = Decoder.ENC_NORMAL)
    (A B buttonPin : Nat) (active readA readB up : Bool) (st : Statics) (g : Nat) (hg : 1 ≤ g)
    (k : Nat) (hk : k + 1 ≤ 65535) :
    (getValue (run bld (new A B buttonPin 1 active readA readB st)
      (burst active up g (new A B buttonPin 1 active readA readB st).last (k + 1)))).1.natAbs =
      1 + burstAccel g 25 k / 256 ∧
    (up = true → k + 1 ≤ 32767 →
      0 < (getValue (run bld (new A B buttonPin 1 active readA readB st)
        (burst active up g (new A B buttonPin 1 active readA readB st).last (k + 1)))).1) := by
  obtain ⟨n0, n3, np, ne, na, nd, ns⟩ := new_motion_fields A B buttonPin 1 active readA readB st
  obtain ⟨r1, r2, r3, r4⟩ := run_burst bld hb active up g hg k
    (new A B buttonPin 1 active readA readB st) n0 n3 np ne (by rw [na]; omega) nd
  rw [na] at r2
  have h25 : accelGrow (0 - 2) = 25 := by decide
  rw [h25] at r2
  have hne := toInt16_burst_ne_zero up k hk
  obtain ⟨v1, v2, -⟩ := getValue_unit_steps _ (r4.trans ns) r1
    (by rw [r2]; exact burstAccel_le g k 25 (by omega))
    (by rw [r3]; exact (toInt16_range _).1) (by rw [r3]; exact (toInt16_range _).2)
    (by rw [r3]; exact hne)
  rw [r2] at v1
  refine ⟨v1, fun hu hsmall => v2 ?_⟩
  rw [r3, hu, if_pos rfl]
  exact toInt16_burst_pos k hsmall

theorem burst_value_wrap (bld : Build) (hb : bld.decoder = Decoder.ENC_NORMAL)
    (A B buttonPin : Nat) (active readA readB up : Bool) (st : Statics) (g : Nat)
    (hg : 1 ≤ g) :
    (getValue (run bld (new A B buttonPin 1 active readA readB st)
      (burst active up g (new A B buttonPin 1 active readA readB st).last 65536))).1 = 0 := by
  obtain ⟨n0, n3, np, ne, na, nd, ns⟩ := new_motion_fields A B buttonPin 1 active readA readB st
  obtain ⟨-, -, r3, r4⟩ := run_burst bld hb active up g hg 65535
    (new A B buttonPin 1 active readA readB st) n0 n3 np ne (by rw [na]; omega) nd
  apply getValue_zero_delta _ (r4.trans ns)
  rw [r3]
  unfold toInt16
  split_ifs <;> norm_num

theorem burstAccel_far (g : Nat) (hg : 13 ≤ g) (k : Nat) : burstAccel g 25 k = 25 := by
  induction k with
  | zero => rfl
  | succ k ih =>
    rw [burstAccel_succ]
    have h0 : 25 - 2 * g = 0 := by omega
    rw [h0]
    exact ih

theorem burstAccel_table : ∀ k, k < 157 → ∀ g2, g2 < 13 → ∀ g1, g1 < g2 → 1 ≤ g1 →
    burstAccel g2 25 k / 256 ≤ burstAccel g1 25 k / 256 := by
  decide!

set_option maxRecDepth 20000 in
theorem burstAccel_fast : burstAccel 1 25 157 = 3061 := by decide

set_option maxRecDepth 20000 in
theorem burstAccel_slow : burstAccel 2 25 157 = 3072 := by decide

/-! ### Any value of the window counter -/

theorem buttonTicks_succ (level : Bool) (t0 n : Nat) :
    buttonTicks level t0 (n + 1) = buttonTick level (t0 + 1) :: buttonTicks level (t0 + 1) n :=
  rfl

/-- Claim C14, the code at the failing input. Double-click detection is disabled right
after construction. A press of 10 ticks, 990 ticks with the pin inactive, a second press of
10 ticks and its release (one service call per millisecond): the first release sets the
window counter to 1, the countdown takes it through 0 to 255 and on down to 59, so the
second release, one second after the first, finds it between 1 and 60 and the button
state becomes `DoubleClicked`. -/
theorem single_click_mode_reports_double_click :
    (setDoubleClickEnabled idleState false).doubleClickEnabled = false ∧
    (run normalBuild (setDoubleClickEnabled idleState false)
      (buttonTicks false 0 10 ++ buttonTicks true 10 990)).doubleClickTicks = 59 ∧
    (run normalBuild (setDoubleClickEnabled idleState false)
      (buttonTicks false 0 10 ++ buttonTicks true 10 990 ++ buttonTicks false 1000 10 ++
        buttonTicks true 1010 10)).doubleClickEnabled = false ∧
    (run normalBuild (setDoubleClickEnabled idleState false)
      (buttonTicks false 0 10 ++ buttonTicks true 10 990 ++ buttonTicks false 1000 10 ++
        buttonTicks true 1010 10)).button = ButtonType.DoubleClicked ∧
    (get_button (run normalBuild (setDoubleClickEnabled idleState false)
      (buttonTicks false 0 10 ++ buttonTicks true 10 990 ++ buttonTicks false 1000 10 ++
        buttonTicks true 1010 10))).1 = ButtonType.DoubleClicked := by
  have hs0 : (setDoubleClickEnabled idleState false).doubleClickEnabled = false := rfl
  generalize hs : setDoubleClickEnabled idleState false = s0 at *
  have n1 : s0.pinsActive = false := by rw [← hs]; rfl
  have n2 : s0.button = ButtonType.Open := by rw [← hs]; rfl
  have n3 : s0.keyDownTicks = 0 := by rw [← hs]; rfl
  have n4 : s0.doubleClickTicks = 0 := by rw [← hs]; rfl
  have n6 : s0.last_buttonCheck + 0 = 0 := by rw [← hs]; rfl
  have n7 : s0.pinBTN > 0 := by rw [← hs]; decide
  obtain ⟨a1, a2, a3⟩ := buttonTicks_checks normalBuild false 10 s0 0 0 n7 n6
    (by decide) (by decide)
  obtain ⟨p1, p2, p3, p4, -, -⟩ := press_short normalBuild false (buttonTicks false 0 10)
    s0 (buttonTicks_pinPhase false true 0 10) n1 n2 (by rw [n4]; decide) (Or.inl (by rw [n4]))
    (by rw [n3]; omega)
  have e1 := (phase_config normalBuild false true (buttonTicks false 0 10) s0
    (buttonTicks_pinPhase false true 0 10)).1
  rw [n3, a1] at p3
  rw [n4] at p4
  rw [hs0] at e1
  obtain ⟨b1, b2, b3⟩ := buttonTicks_checks normalBuild true 990
    (run normalBuild s0 (buttonTicks false 0 10)) 10 0 a3 (by omega) (by decide) (by decide)
  obtain ⟨q1, q2, q3, q4, -, -⟩ := up_count_first normalBuild false (buttonTicks true 10 990)
    (run normalBuild s0 (buttonTicks false 0 10)) (buttonTicks_pinPhase false false 10 990)
    p1 p2 (by rw [p3]; decide) (by rw [p4]; omega) (by omega) (Or.inr (by omega))
  have e2 := (phase_config normalBuild false false (buttonTicks true 10 990)
    (run normalBuild s0 (buttonTicks false 0 10)) (buttonTicks_pinPhase false false 10 990)).1
  rw [e1, b1] at q4
  rw [e1] at e2
  rw [← run_append] at q1 q2 q3 q4 b2 b3 e2
  have q4' : (run normalBuild s0
      (buttonTicks false 0 10 ++ buttonTicks true 10 990)).doubleClickTicks = 59 := by
    rw [q4]
    decide
  obtain ⟨c1, c2, c3⟩ := buttonTicks_checks normalBuild false 10
    (run normalBuild s0 (buttonTicks false 0 10 ++ buttonTicks true 10 990)) 1000 0 b3
    (by omega) (by decide) (by decide)
  obtain ⟨r1, r2, r3, r4, -, -⟩ := press_short normalBuild false (buttonTicks false 1000 10)
    (run normalBuild s0 (buttonTicks false 0 10 ++ buttonTicks true 10 990))
    (buttonTicks_pinPhase false true 1000 10) q1 q2 (by rw [q4']; decide)
    (Or.inr (by rw [q4', c1]; decide)) (by rw [q3, c1]; decide)
  have e3 := (phase_config normalBuild false true (buttonTicks false 1000 10)
    (run normalBuild s0 (buttonTicks false 0 10 ++ buttonTicks true 10 990))
    (buttonTicks_pinPhase false true 1000 10)).1
  rw [q3, c1] at r3
  rw [q4', c1] at r4
  rw [e2] at e3
  rw [← run_append] at r1 r2 r3 r4 c2 c3 e3
  obtain ⟨d1, d2, d3⟩ := buttonTicks_checks normalBuild true 10
    (run normalBuild s0
      (buttonTicks false 0 10 ++ buttonTicks true 10 990 ++ buttonTicks false 1000 10))
    1010 0 c3 (by omega) (by decide) (by decide)
  obtain ⟨s1, s2, s3, s4⟩ := release_event normalBuild false ButtonType.DoubleClicked
    (buttonTicks true 1010 10)
    (run normalBuild s0
      (buttonTicks false 0 10 ++ buttonTicks true 10 990 ++ buttonTicks false 1000 10))
    (buttonTicks_phase false false 10 1010) r1 (by rw [r3]; decide) (by omega)
    (Or.inr ⟨by rw [r2]; decide, by rw [r4]; decide, by rw [r4]; decide, rfl⟩)
  have e4 := (phase_config normalBuild false false (buttonTicks true 1010 10)
    (run normalBuild s0
      (buttonTicks false 0 10 ++ buttonTicks true 10 990 ++ buttonTicks false 1000 10))
    (buttonTicks_pinPhase false false 1010 10)).1
  rw [e3] at e4
  rw [← run_append] at s4 e4
  exact ⟨hs0, q4', e4, s4, by rw [get_button_fst, s4]⟩

/-- Claim C16. An encoder constructed with button pin index 0: after every sequence of
calls (service ticks with any pin samples and any clock values, `get_button`, `getValue`,
the setters) the button state is `Open`, and every `get_button` call of the sequence
returns `Open`. -/
theorem unwired_button_stays_open (bld : Build) (A B stepsPerNotch : Nat)
    (active readA readB : Bool) (st : Statics) (ops : List Op) :
    (run bld (new A B 0 stepsPerNotch active readA readB st) ops).button = ButtonType.Open ∧
    ∀ b, Out.button b ∈ outputs bld (new A B 0 stepsPerNotch active readA readB st) ops →
      b = ButtonType.Open := by
  obtain ⟨h1, h2⟩ := run_invariant bld (fun _ => True)
    (fun s => s.pinBTN = 0 ∧ s.button = ButtonType.Open)
    (fun out => ∀ b, out = Out.button b → b = ButtonType.Open)
    (fun s op _ h => step_unwired bld s op h) ops
    (new A B 0 stepsPerNotch active readA readB st) (fun _ _ => trivial) ⟨rfl, rfl⟩
  exact ⟨h1.2, fun b hb => h2 _ hb b rfl⟩

/-- Claim C20. In every state reached from construction by any sequence of service,
`getValue`, `get_button` and setter calls, under either decoder, the button state is
`Open`, `Held`, `Released` or `DoubleClicked`, so it is none of `Clicked`, `Pressed` and
`Closed`; and every value returned by a `get_button` call of the sequence is one of the
same four, so none of `Clicked`, `Pressed` and `Closed`. -/
theorem button_state_is_one_of_four (bld : Build) (A B buttonPin stepsPerNotch : Nat)
    (active readA readB : Bool) (st : Statics) (ops : List Op) :
    ((run bld (new A B buttonPin stepsPerNotch active readA readB st) ops).button ∈
        [ButtonType.Open, ButtonType.Held, ButtonType.Released, ButtonType.DoubleClicked] ∧
      (run bld (new A B buttonPin stepsPerNotch active readA readB st) ops).button ∉
        [ButtonType.Clicked, ButtonType.Pressed, ButtonType.Closed]) ∧
    ∀ b, Out.button b ∈ outputs bld (new A B buttonPin stepsPerNotch active readA readB st) ops →
      b ∈ [ButtonType.Open, ButtonType.Held, ButtonType.Released, ButtonType.DoubleClicked] ∧
      b ∉ [ButtonType.Clicked, ButtonType.Pressed, ButtonType.Closed] := by
  have key : ∀ b : ButtonType,
      (b = ButtonType.Open ∨ b = ButtonType.Held ∨ b = ButtonType.Released ∨
        b = ButtonType.DoubleClicked) →
      b ∈ [ButtonType.Open, ButtonType.Held, ButtonType.Released, ButtonType.DoubleClicked] ∧
      b ∉ [ButtonType.Clicked, ButtonType.Pressed, ButtonType.Closed] := by
    intro b hb
    rcases hb with h | h | h | h <;> rw [h] <;> decide
  obtain ⟨h1, h2⟩ := run_invariant bld (fun _ => True)
    (fun s => s.button = ButtonType.Open ∨ s.button = ButtonType.Held ∨
      s.button = ButtonType.Released ∨ s.button = ButtonType.DoubleClicked)
    (fun out => ∀ b, out = Out.button b →
      b = ButtonType.Open ∨ b = ButtonType.Held ∨ b = ButtonType.Released ∨
      b = ButtonType.DoubleClicked)
    (fun s op _ h => step_button_range bld s op h) ops
    (new A B buttonPin stepsPerNotch active readA readB st) (fun _ _ => trivial) (Or.inl rfl)
  exact ⟨key _ h1, fun b hb => key b (h2 _ hb b rfl)⟩

/-! ## The decay of the accelerator -/

/-- Claim C18. On every state with acceleration enabled and an acceleration of at most
3072, the decay of `service` (16-bit subtraction of 2, then 0 if bit 15 is set) stores
the saturating difference `max(a - 2, 0)`, which is at most `a`. Every state reached from
construction by any call sequence has an acceleration of at most 3072, so there the decay
never wraps below zero: it stores `max(a - 2, 0)` when acceleration is enabled and leaves
the counter alone when it is disabled. -/
theorem decay_is_saturating_subtraction :
    (∀ s : ClickEncoder, s.accelerationEnabled = true → s.acceleration ≤ 3072 →
      (serviceDecay s).acceleration = saturatingDecay s.acceleration ∧
      (serviceDecay s).acceleration ≤ s.acceleration) ∧
    ∀ (bld : Build) (A B buttonPin stepsPerNotch : Nat) (active readA readB : Bool) (st : Statics)
      (ops : List Op),
      (run bld (new A B buttonPin stepsPerNotch active readA readB st) ops).acceleration ≤ 3072 ∧
      (serviceDecay (run bld (new A B buttonPin stepsPerNotch active readA readB st)
        ops)).acceleration =
        (if (run bld (new A B buttonPin stepsPerNotch active readA readB st)
            ops).accelerationEnabled
          then saturatingDecay
            (run bld (new A B buttonPin stepsPerNotch active readA readB st) ops).acceleration
          else (run bld (new A B buttonPin stepsPerNotch active readA readB st)
            ops).acceleration) := by
  have hsat : ∀ a : Nat, saturatingDecay a = a - 2 := by
    intro a
    unfold saturatingDecay
    omega
  refine ⟨fun s he ha => ?_, fun bld A B buttonPin stepsPerNotch active readA readB st ops => ?_⟩
  · rw [serviceDecay_acceleration s (by omega), if_pos he, hsat]
    exact ⟨rfl, Nat.sub_le _ _⟩
  · have hle := run_acceleration_le bld ops
      (new A B buttonPin stepsPerNotch active readA readB st) (Nat.zero_le _)
    unfold ENC_ACCEL_TOP at hle
    refine ⟨hle, ?_⟩
    rw [serviceDecay_acceleration _ (by omega), hsat]

/-- Witness for claim C18: the decay of the sample state (acceleration 600, enabled)
stores 598, and the decay of a state with acceleration 1 stores 0. -/
theorem decay_is_saturating_subtraction_witness :
    (serviceDecay sampleState).acceleration = 598 ∧
    (serviceDecay { sampleState with acceleration := 1 }).acceleration = 0 := by
  have h1 := (decay_is_saturating_subtraction.1 sampleState rfl (by decide)).1
  have h2 := (decay_is_saturating_subtraction.1 { sampleState with acceleration := 1 } rfl
    (by decide)).1
  exact ⟨h1.trans (by decide), h2.trans (by decide)⟩

/-! ## The button timing counters -/

/-- Counterexample to claim C17 as stated: an encoder constructed with one step per notch
(acceleration enabled and 0), normal decoder, bursts in the counting-up direction. For a
burst of 158 steps, `getValue` returns 12 with a step on every tick and 13 with a step
every second tick: the slower burst gives the larger magnitude. For a burst of 65536
steps, one on every tick, the 16-bit delta has wrapped to 0 and `getValue` returns 0, a
magnitude below 1. -/
theorem faster_burst_smaller_magnitude :
    burstState.accelerationEnabled = true ∧ burstState.steps = 1 ∧
    burstState.acceleration = 0 ∧ burstState.last = 0 ∧
    (getValue (run normalBuild burstState (burst false true 1 0 158))).1 = 12 ∧
    (getValue (run normalBuild burstState (burst false true 2 0 158))).1 = 13 ∧
    (getValue (run normalBuild burstState (burst false true 1 0 65536))).1 = 0 := by
  obtain ⟨a1, a2⟩ := burst_value normalBuild rfl 1 2 3 false true true true zeroStatics 1
    (by decide) 157 (by decide)
  obtain ⟨b1, b2⟩ := burst_value normalBuild rfl 1 2 3 false true true true zeroStatics 2
    (by decide) 157 (by decide)
  have h1 : burstAccel 1 25 157 = 3061 := burstAccel_fast
  have h2 : burstAccel 2 25 157 = 3072 := burstAccel_slow
  rw [h1] at a1
  rw [h2] at b1
  have a3 := a2 rfl (by decide)
  have b3 := b2 rfl (by decide)
  refine ⟨rfl, rfl, rfl, rfl, ?_, ?_, ?_⟩
  · show (getValue (run normalBuild (new 1 2 3 1 false true true zeroStatics)
      (burst false true 1 (new 1 2 3 1 false true true zeroStatics).last (157 + 1)))).1 = 12
    omega
  · show (getValue (run normalBuild (new 1 2 3 1 false true true zeroStatics)
      (burst false true 2 (new 1 2 3 1 false true true zeroStatics).last (157 + 1)))).1 = 13
    omega
  · exact burst_value_wrap normalBuild rfl 1 2 3 false true true true zeroStatics 1
      (by decide)

/-- Claim C17 (amended). Normal decoder, an encoder constructed with one step per notch
(acceleration enabled and 0), and a burst of `N` steps in one direction, `1 <= N <= 65535`,
one step every `g` service ticks, read with `getValue` right after the last step. For a
single step the magnitude of the returned value is 1. For spacings `1 <= g1 < g2` the
magnitudes for both spacings are at least 1, and for `N <= 157` the magnitude for the
faster spacing `g1` is at least the magnitude for `g2`. -/
theorem burst_magnitude_monotone (bld : Build) (A B buttonPin : Nat)
    (active readA readB up : Bool) (st : Statics) (N g1 g2 : Nat)
    (hb : bld.decoder = Decoder.ENC_NORMAL) (hN : 1 ≤ N) (hmax : N ≤ 65535)
    (hg1 : 1 ≤ g1) (hg : g1 < g2) :
    (getValue (run bld (new A B buttonPin 1 active readA readB st)
      (burst active up g1 (new A B buttonPin 1 active readA readB st).last 1))).1.natAbs = 1 ∧
    1 ≤ (getValue (run bld (new A B buttonPin 1 active readA readB st)
      (burst active up g1 (new A B buttonPin 1 active readA readB st).last N))).1.natAbs ∧
    1 ≤ (getValue (run bld (new A B buttonPin 1 active readA readB st)
      (burst active up g2 (new A B buttonPin 1 active readA readB st).last N))).1.natAbs ∧
    (N ≤ 157 →
      (getValue (run bld (new A B buttonPin 1 active readA readB st)
        (burst active up g2 (new A B buttonPin 1 active readA readB st).last N))).1.natAbs ≤
      (getValue (run bld (new A B buttonPin 1 active readA readB st)
        (burst active up g1 (new A B buttonPin 1 active readA readB st).last N))).1.natAbs) := by
  obtain ⟨k, rfl⟩ : ∃ k, N = k + 1 := ⟨N - 1, by omega⟩
  obtain ⟨s1, -⟩ := burst_value bld hb A B buttonPin active readA readB up st g1 hg1 0
    (by decide)
  obtain ⟨a1, -⟩ := burst_value bld hb A B buttonPin active readA readB up st g1 hg1 k hmax
  obtain ⟨a2, -⟩ := burst_value bld hb A B buttonPin active readA readB up st g2 (by omega) k
    hmax
  refine ⟨?_, ?_, ?_, fun hcap => ?_⟩
  · have h0 : burstAccel g1 25 0 = 25 := rfl
    rw [s1, h0]
  · rw [a1]
    omega
  · rw [a2]
    omega
  · rw [a1, a2]
    by_cases hfar : 13 ≤ g2
    · rw [burstAccel_far g2 hfar k]
      omega
    · have := burstAccel_table k (by omega) g2 (by omega) g1 hg hg1
      omega

/-- Witness for claim C17: the constructed encoder of the examples, a burst of 150 steps
in the counting-up direction: the magnitude with a step every second tick is at most the
magnitude with a step on every tick. -/
theorem burst_magnitude_monotone_witness :
    (getValue (run normalBuild (new 1 2 3 1 false true true zeroStatics)
      (burst false true 2 (new 1 2 3 1 false true true zeroStatics).last 150))).1.natAbs ≤
    (getValue (run normalBuild (new 1 2 3 1 false true true zeroStatics)
      (burst false true 1 (new 1 2 3 1 false true true zeroStatics).last 150))).1.natAbs :=
  (burst_magnitude_monotone normalBuild 1 2 3 false true true true zeroStatics 150 1 2 rfl
    (by decide) (by decide) (by decide) (by decide)).2.2.2 (by decide)

end Firmware
